import Mathlib

/-!
Verification development for the libzip core (PolyCam/libzip).

Each C function referenced by a claim is translated into an executable Lean
definition (shallow embedding): machine integers become `Nat`/`Int` with
explicit `% 2^w` where the C arithmetic can wrap, byte buffers become lists
of byte values, fallible functions return `Option`/`Except`, and stateful
code is written as explicit state passing.  The theorems at the end of the
file settle the specification claims against these definitions.
-/

namespace LibZip

/-! ## Constants (from lib/libzip.h, lib/zipint.h and zipconf.h) -/

def LIBZIP_UINT16_MAX : Nat := 65535
def LIBZIP_UINT32_MAX : Nat := 4294967295
def LIBZIP_INT64_MAX : Nat := 9223372036854775807

/-- 2^64, the modulus of C `libzip_uint64_t` arithmetic. -/
def U64MOD : Nat := 18446744073709551616

def CDENTRYSIZE : Nat := 46
def LENTRYSIZE : Nat := 30
def MAXCOMLEN : Nat := 65536
def EOCDLEN : Nat := 22
def EOCD64LOCLEN : Nat := 20
def EOCD64LEN : Nat := 56
def CDBUFSIZE : Nat := MAXCOMLEN + EOCDLEN + EOCD64LOCLEN
def EFZIP64SIZE : Nat := 28
def EF_WINLIBZIP_AES_SIZE : Nat := 7

def LIBZIP_FL_UNCHANGED : Nat := 8
def LIBZIP_FL_LOCAL : Nat := 256
def LIBZIP_FL_CENTRAL : Nat := 512
def LIBZIP_FL_FORCE_ZIP64 : Nat := 1024

def LIBZIP_EF_LOCAL : Nat := LIBZIP_FL_LOCAL
def LIBZIP_EF_CENTRAL : Nat := LIBZIP_FL_CENTRAL
def LIBZIP_EF_BOTH : Nat := LIBZIP_EF_LOCAL ||| LIBZIP_EF_CENTRAL

def LIBZIP_CHECKCONS : Nat := 4

def LIBZIP_EF_UTF_8_COMMENT : Nat := 0x6375
def LIBZIP_EF_UTF_8_NAME : Nat := 0x7075
def LIBZIP_EF_WINLIBZIP_AES : Nat := 0x9901
def LIBZIP_EF_ZIP64 : Nat := 0x0001

def LIBZIP_CM_STORE : Int := 0
def LIBZIP_CM_DEFLATE : Int := 8
def LIBZIP_CM_WINLIBZIP_AES : Int := 99

def LIBZIP_EM_NONE : Nat := 0
def LIBZIP_EM_AES_128 : Nat := 0x0101
def LIBZIP_EM_AES_192 : Nat := 0x0102
def LIBZIP_EM_AES_256 : Nat := 0x0103

/-! Error codes (lib/libzip.h). -/

def LIBZIP_ER_OK : Nat := 0
def LIBZIP_ER_MULTIDISK : Nat := 1
def LIBZIP_ER_SEEK : Nat := 4
def LIBZIP_ER_CRC : Nat := 7
def LIBZIP_ER_NOENT : Nat := 9
def LIBZIP_ER_EXISTS : Nat := 10
def LIBZIP_ER_MEMORY : Nat := 14
def LIBZIP_ER_EOF : Nat := 17
def LIBZIP_ER_INVAL : Nat := 18
def LIBZIP_ER_NOZIP : Nat := 19
def LIBZIP_ER_INTERNAL : Nat := 20
def LIBZIP_ER_INCONS : Nat := 21
def LIBZIP_ER_DATA_LENGTH : Nat := 33

/-! INCONS detail codes (lib/zipint.h). -/

def LIBZIP_ER_DETAIL_CDIR_OVERLAPS_EOCD : Nat := 1
def LIBZIP_ER_DETAIL_COMMENT_LENGTH_INVALID : Nat := 2
def LIBZIP_ER_DETAIL_CDIR_LENGTH_INVALID : Nat := 3
def LIBZIP_ER_DETAIL_CDIR_ENTRY_INVALID : Nat := 4
def LIBZIP_ER_DETAIL_CDIR_WRONG_ENTRIES_COUNT : Nat := 5
def LIBZIP_ER_DETAIL_EOCD_LENGTH_INVALID : Nat := 7
def LIBZIP_ER_DETAIL_EOCD64_OVERLAPS_EOCD : Nat := 8
def LIBZIP_ER_DETAIL_EOCD64_WRONG_MAGIC : Nat := 9
def LIBZIP_ER_DETAIL_EOCD64_MISMATCH : Nat := 10
def LIBZIP_ER_DETAIL_CDIR_INVALID : Nat := 11
def LIBZIP_ER_DETAIL_EF_TRAILING_GARBAGE : Nat := 15
def LIBZIP_ER_DETAIL_INVALID_EF_LENGTH : Nat := 16
def LIBZIP_ER_DETAIL_INVALID_FILE_LENGTH : Nat := 17

def MAX_DETAIL_INDEX : Nat := 0x7fffff

/-- `MAKE_DETAIL_WITH_INDEX(error, index)` from zipint.h:
`(((index) > MAX_DETAIL_INDEX) ? MAX_DETAIL_INDEX : (int)(index)) << 8 | (error)`. -/
def MAKE_DETAIL_WITH_INDEX (error index : Nat) : Nat :=
  ((if index > MAX_DETAIL_INDEX then MAX_DETAIL_INDEX else index) <<< 8) ||| error

/-- A libzip error slot: `(libzip-code, system/detail code)`. -/
structure ZErr where
  code : Nat
  sys : Nat
deriving Repr, DecidableEq

/-! ## Byte-buffer cursor (lib/zip_buffer.c)

The C struct `libzip_buffer` carries `data`, `size`, `offset`, `ok` (and a
`free_data` ownership flag irrelevant to the semantics).  `size` always
equals the length of the backing allocation, so the model stores the backing
bytes as a list and derives `size` from it. -/

structure ZBuffer where
  data : List Nat
  offset : Nat
  ok : Bool
deriving Repr, DecidableEq

namespace ZBuffer

/-- `_libzip_buffer_new` with caller-supplied data. -/
def new (data : List Nat) : ZBuffer := ⟨data, 0, true⟩

/-- The `size` field of the C struct (always the backing length). -/
def size (b : ZBuffer) : Nat := b.data.length

/-- `_libzip_buffer_peek`: the returned pointer `data + offset` together
with the requested length denotes the slice `data[offset .. offset+length)`;
the C overflow test `buffer->offset + length < length` is the u64 wrap
check, modelled with an explicit `% 2^64`. -/
def peek (b : ZBuffer) (length : Nat) : Option (List Nat) × ZBuffer :=
  if b.ok = false ∨ (b.offset + length) % U64MOD < length
      ∨ (b.offset + length) % U64MOD > b.size then
    (none, { b with ok := false })
  else
    (some ((b.data.drop b.offset).take length), b)

/-- `_libzip_buffer_get`: peek, then advance on success. -/
def get (b : ZBuffer) (length : Nat) : Option (List Nat) × ZBuffer :=
  match peek b length with
  | (some d, b') => (some d, { b' with offset := b'.offset + length })
  | (none, b') => (none, b')

/-- Little-endian value of a byte list (used by `get_16/32/64`). -/
def leval (bytes : List Nat) : Nat :=
  bytes.foldr (fun byte acc => byte + 256 * acc) 0

/-- Common body of `_libzip_buffer_get_8/16/32/64`: little-endian read of
`n` bytes, 0 when the read fails. -/
def getLE (b : ZBuffer) (n : Nat) : Nat × ZBuffer :=
  match get b n with
  | (some d, b') => (leval d, b')
  | (none, b') => (0, b')

/-- `_libzip_buffer_get_8`. -/
def get8 (b : ZBuffer) : Nat × ZBuffer := getLE b 1

/-- `_libzip_buffer_get_16`. -/
def get16 (b : ZBuffer) : Nat × ZBuffer := getLE b 2

/-- `_libzip_buffer_get_32`. -/
def get32 (b : ZBuffer) : Nat × ZBuffer := getLE b 4

/-- `_libzip_buffer_get_64`. -/
def get64 (b : ZBuffer) : Nat × ZBuffer := getLE b 8

/-- `_libzip_buffer_set_offset`. -/
def setOffset (b : ZBuffer) (offset : Nat) : Int × ZBuffer :=
  if offset > b.size then (-1, { b with ok := false })
  else (0, { b with ok := true, offset := offset })

/-- `_libzip_buffer_skip`: the sum `buffer->offset + length` is u64
arithmetic, wrap detected by comparing with the old offset. -/
def skip (b : ZBuffer) (length : Nat) : Int × ZBuffer :=
  let offset := (b.offset + length) % U64MOD
  if offset < b.offset then (-1, { b with ok := false })
  else setOffset b offset

/-- `_libzip_buffer_left`. -/
def left (b : ZBuffer) : Nat := if b.ok then b.size - b.offset else 0

/-- `_libzip_buffer_eof`. -/
def eof (b : ZBuffer) : Bool := b.ok && b.offset == b.size

/-- `_libzip_buffer_offset` (0 once the buffer is in the error state). -/
def offsetVal (b : ZBuffer) : Nat := if b.ok then b.offset else 0

/-- The cursor invariant: the read position never passes the end of the
backing slice, and all stored quantities are u64 values. -/
def Inv (b : ZBuffer) : Prop := b.offset ≤ b.size ∧ b.size < U64MOD

instance (b : ZBuffer) : Decidable (Inv b) := by
  unfold Inv; infer_instance

end ZBuffer

/-! ## Extra fields (lib/zip_extra_field.c)

A `libzip_extra_field` node carries `id`, `size` (u16, the length of
`data`), the payload bytes and the scope `flags`; the list order is the
on-disk record order. -/

structure EfRec where
  id : Nat
  size : Nat
  data : List Nat
  flags : Nat
deriving Repr, DecidableEq

/-- `_libzip_ef_size`: sums `4 + size` over the records whose flags match,
in a `libzip_uint16_t` accumulator — the C statement
`size = (libzip_uint16_t)(size + 4 + ef->size)` truncates mod 2^16 at
every step. -/
def efSize (ef : List EfRec) (flags : Nat) : Nat :=
  ef.foldl
    (fun size e =>
      if e.flags &&& flags &&& LIBZIP_EF_BOTH ≠ 0 then (size + 4 + e.size) % 65536
      else size)
    0

/-- Specification-side value for comparison with `efSize`: the exact
(unbounded) sum of `4 + size` over the records whose flags match. -/
def efSizeTrue (ef : List EfRec) (flags : Nat) : Nat :=
  match ef with
  | [] => 0
  | e :: rest =>
    (if e.flags &&& flags &&& LIBZIP_EF_BOTH ≠ 0 then 4 + e.size else 0) +
      efSizeTrue rest flags

/-- Little-endian encoding of a u16 value (2 bytes). -/
def le16 (v : Nat) : List Nat := [v % 256, v / 256 % 256]

/-- On-disk layout of an extra-field list: `[id_le16, len_le16, data[len]]`
per record, records in list order (as `_libzip_ef_write` emits them). -/
def efSerialize : List EfRec → List Nat
  | [] => []
  | e :: rest => le16 e.id ++ le16 e.size ++ e.data ++ efSerialize rest

/-- Loop body of `_libzip_ef_parse`: while at least 4 bytes are left, read
`fid`/`flen` (little endian) and `flen` payload bytes; a payload over-run
is `INCONS`/`INVALID_EF_LENGTH`.  Once fewer than 4 bytes remain, a
non-empty remainder must be at most 3 NUL bytes (Android APK padding),
else `INCONS`/`EF_TRAILING_GARBAGE`. -/
def efParseGo (flags : Nat) (data : List Nat) : Except ZErr (List EfRec) :=
  match data with
  | b0 :: b1 :: b2 :: b3 :: rest =>
    let fid := b0 + 256 * b1
    let flen := b2 + 256 * b3
    if flen ≤ rest.length then
      match efParseGo flags (rest.drop flen) with
      | .ok efs => .ok (⟨fid, flen, rest.take flen, flags⟩ :: efs)
      | .error e => .error e
    else .error ⟨LIBZIP_ER_INCONS, LIBZIP_ER_DETAIL_INVALID_EF_LENGTH⟩
  | tail =>
    if tail = [] then .ok []
    else if tail.length ≥ 4 ∨ tail.any (fun x => x ≠ 0) then
      .error ⟨LIBZIP_ER_INCONS, LIBZIP_ER_DETAIL_EF_TRAILING_GARBAGE⟩
    else .ok []
termination_by data.length
decreasing_by simp [List.length_drop]; omega

/-- `_libzip_ef_parse` over a byte slice. -/
def efParse (data : List Nat) (flags : Nat) : Except ZErr (List EfRec) :=
  efParseGo flags data

/-- Records producible by `_libzip_ef_parse` under scope `flags`: u16
bounds on id and declared length, declared length equal to the payload
length, and the scope flag stamped on every record. -/
def EfWF (flags : Nat) (e : EfRec) : Prop :=
  e.id ≤ 65535 ∧ e.size ≤ 65535 ∧ e.size = e.data.length ∧ e.flags = flags

instance (flags : Nat) (e : EfRec) : Decidable (EfWF flags e) := by
  unfold EfWF; infer_instance

/-! ## Candidate selection in `_libzip_find_central_dir` (lib/zip_open.c)

The scan walks the tail buffer with `_libzip_memmem` from low to high
offsets, so EOCD candidates are visited in increasing-offset order.  For
each candidate, `_libzip_read_cdir` either fails (`none`) or yields a
central directory; `_libzip_checkcons` is a deterministic function of that
directory (−1 when inconsistent, else the span between the lowest and
highest file position reached), abstracted here as `score`. -/

/-- One iteration of the scan loop (zip_open.c lines 613-644): the state is
`(cdir, best)`. -/
def findCdStep {α : Type} (checkcons : Bool) (score : α → Int)
    (st : Option α × Int) (cand : Option α) : Option α × Int :=
  match cand with
  | none => st
  | some cdirnew =>
    match st.1 with
    | some cdir =>
      let best := if st.2 ≤ 0 then score cdir else st.2
      if best < score cdirnew then (some cdirnew, score cdirnew)
      else (some cdir, best)
    | none =>
      (some cdirnew, if checkcons then score cdirnew else 0)

/-- The candidate loop of `_libzip_find_central_dir` (initial state
`best = -1`, `cdir = NULL`) followed by the final `best < 0` failure
check. -/
def findCentralDir {α : Type} (checkcons : Bool) (score : α → Int)
    (cands : List (Option α)) : Option α :=
  let st := cands.foldl (findCdStep checkcons score) (none, -1)
  if st.2 < 0 then none else st.1

/-- Specification-side helper: the first maximizer of `score`, scanning
left to right starting from `h` (a strictly larger score replaces the
current holder). -/
def selBest {α : Type} (score : α → Int) (h : α) : List α → α
  | [] => h
  | c :: cs => if score h < score c then selBest score c cs else selBest score h cs

/-- Specification-side value of the candidate loop, on the sub-list of
candidates that parse: no parse — failure; exactly one parse — that
directory, vetted by `checkcons` only in `CHECKCONS` mode; two or more
parses — the first maximizer of the consistency score, failure if even its
score is negative. -/
def selSpec {α : Type} (checkcons : Bool) (score : α → Int) :
    List α → Option α
  | [] => none
  | [c] => if checkcons then (if score c < 0 then none else some c) else some c
  | c :: cs =>
    let w := selBest score c cs
    if score w < 0 then none else some w

/-! ## Central-directory entry loop of `_libzip_read_cdir` (lib/zip_open.c)

Model of the `while (left > 0)` loop (lines 348-383) and the
`i != cd->nentry || left > 0` check after it (lines 385-390).  `sizes`
lists the byte sizes of the consecutive well-formed central headers that
occupy the directory region (each at least `CDENTRYSIZE`); a read past the
listed headers fails as in `_libzip_dirent_read`.  The details of a failed
entry read (NOZIP / INCONS with index) are irrelevant here and folded to
`readFail`. -/

inductive CdLoopRes
  | ok
  | wrongCount
  | readFail
deriving Repr, DecidableEq

/-- The entry-reading loop: `i` entries read so far, `nentry` the current
(possibly grown) expected count, `left` the unconsumed bytes of the
recorded region.  Growth by 0x10000 is the InfoZIP `nentries mod 0x10000`
workaround. -/
def readCdirLoop (isZip64 : Bool) : Nat → Nat → Nat → List Nat → CdLoopRes
  | nentry, left, i, sizes =>
    if left = 0 then
      if i ≠ nentry then .wrongCount else .ok
    else if i = nentry ∧ (isZip64 = true ∨ left < CDENTRYSIZE) then
      -- break out of the loop with left > 0: the final check fails
      .wrongCount
    else
      let nentry' := if i = nentry then nentry + 0x10000 else nentry
      match sizes with
      | [] => .readFail
      | s :: rest => readCdirLoop isZip64 nentry' (left - s) (i + 1) rest

/-- Outcome of `_libzip_read_cdir` as determined by the entry loop: the
`CDIR_WRONG_ENTRIES_COUNT` rejection happens before — and thus regardless
of — the `CHECKCONS`-only length re-check of lines 392-415. -/
def readCdirEntries (checkcons : Bool) (isZip64 : Bool) (nentry : Nat)
    (sizes : List Nat) (regionSize : Nat) : Option ZErr :=
  match readCdirLoop isZip64 nentry regionSize 0 sizes with
  | .wrongCount => some ⟨LIBZIP_ER_INCONS, LIBZIP_ER_DETAIL_CDIR_WRONG_ENTRIES_COUNT⟩
  | .readFail => some ⟨LIBZIP_ER_NOZIP, 0⟩
  | .ok =>
    -- the CHECKCONS-only re-check of lines 392-415 compares the consumed
    -- length with the recorded size; the loop ends with `left = 0`, i.e.
    -- the region was consumed exactly, so it passes in both modes
    if checkcons then none else none

/-! ## Directory entries (lib/zip_dirent.c)

The dirent carries the union of APPNOTE header fields; only the fields
that `_libzip_dirent_write` consults are modelled (`filename`, `comment`
and `password` enter the write path only through their encodings and
serialized extra-field payloads, which are explicit parameters of
`direntWrite` below; `last_mod` is written through the system
`localtime`-based DOS conversion and is not part of the modelled
output). -/

structure Dirent where
  version_needed : Nat
  bitflags : Nat
  comp_method : Int
  last_mod : Nat
  crc : Nat
  comp_size : Nat
  uncomp_size : Nat
  disk_number : Nat
  int_attrib : Nat
  ext_attrib : Nat
  offset : Nat
  encryption_method : Nat
  extra_fields : List EfRec
deriving Repr, DecidableEq

def LIBZIP_EXT_ATTRIB_DEFAULT : Nat := 0o100666 <<< 16
def LIBZIP_GPBF_ENCRYPTED : Nat := 0x0001
def LIBZIP_GPBF_ENCODING_UTF_8 : Nat := 0x0800
def LIBZIP_CM_DEFAULT : Int := -1

/-- `_libzip_dirent_init` (zip_dirent.c lines 290-315), the fields of the
model only. -/
def direntInit : Dirent where
  version_needed := 10
  bitflags := 0
  comp_method := LIBZIP_CM_DEFAULT
  last_mod := 0
  crc := 0
  comp_size := 0
  uncomp_size := 0
  disk_number := 0
  int_attrib := 0
  ext_attrib := LIBZIP_EXT_ATTRIB_DEFAULT
  offset := 0
  encryption_method := LIBZIP_EM_NONE
  extra_fields := []

/-- `_libzip_dirent_needs_zip64` (zip_dirent.c lines 318-324). -/
def needsZip64 (de : Dirent) (flags : Nat) : Bool :=
  decide (de.uncomp_size ≥ LIBZIP_UINT32_MAX) ||
    decide (de.comp_size ≥ LIBZIP_UINT32_MAX) ||
    (decide (flags &&& LIBZIP_FL_CENTRAL ≠ 0) &&
      decide (de.offset ≥ LIBZIP_UINT32_MAX))

/-- Little-endian encoding of a u32 value (4 bytes). -/
def le32 (v : Nat) : List Nat :=
  [v % 256, v / 256 % 256, v / 65536 % 256, v / 16777216 % 256]

/-- Little-endian encoding of a u64 value, as `_libzip_buffer_put_64`
stores it. -/
def le64 (v : Nat) : List Nat :=
  [v % 256, v / 256 % 256, v / 65536 % 256, v / 16777216 % 256,
   v / 4294967296 % 256, v / 1099511627776 % 256,
   v / 281474976710656 % 256, v / 72057594037927936 % 256]

/-- The ZIP64 extra-field payload assembled into the 28-byte scratch
buffer by `_libzip_dirent_write` (zip_dirent.c lines 846-864); the puts
total at most 24 bytes, so they always succeed and the payload is exactly
this byte sequence. -/
def zip64EfPayload (de : Dirent) (flags : Nat) : List Nat :=
  if flags &&& LIBZIP_FL_LOCAL ≠ 0 then
    if flags &&& LIBZIP_FL_FORCE_ZIP64 ≠ 0 ∨ de.comp_size > LIBZIP_UINT32_MAX ∨
        de.uncomp_size > LIBZIP_UINT32_MAX then
      le64 de.uncomp_size ++ le64 de.comp_size
    else []
  else
    if flags &&& LIBZIP_FL_FORCE_ZIP64 ≠ 0 ∨ de.comp_size > LIBZIP_UINT32_MAX ∨
        de.uncomp_size > LIBZIP_UINT32_MAX ∨ de.offset > LIBZIP_UINT32_MAX then
      (if de.uncomp_size ≥ LIBZIP_UINT32_MAX then le64 de.uncomp_size else []) ++
        (if de.comp_size ≥ LIBZIP_UINT32_MAX then le64 de.comp_size else []) ++
        (if de.offset ≥ LIBZIP_UINT32_MAX then le64 de.offset else [])
    else []

/-- Result of `_libzip_guess_encoding` on a filename or comment, as far as
the write path distinguishes it. -/
inductive ZEncoding
  | ascii
  | utf8Known
  | other
deriving Repr, DecidableEq

/-- The UTF-8 name/comment extra fields synthesized at the top of
`_libzip_dirent_write` (zip_dirent.c lines 803-824): none when the UTF-8
general-purpose bit can be set; otherwise an 0x7075 record for a UTF-8
filename and — in central headers only — an 0x6375 record for a UTF-8
comment, the comment record prepended.  The record payloads
(version byte, CRC-32 and raw string, built by `_libzip_ef_utf8`) are the
`nameEfData`/`comEfData` parameters. -/
def direntWriteUtf8Chain (isLocal : Bool) (nameEnc comEnc : ZEncoding)
    (nameEfData comEfData : List Nat) : List EfRec :=
  if (nameEnc = .utf8Known ∧ comEnc = .ascii) ∨
      (nameEnc = .ascii ∧ comEnc = .utf8Known) ∨
      (nameEnc = .utf8Known ∧ comEnc = .utf8Known) then []
  else
    let ef := if nameEnc = .utf8Known then
        [⟨LIBZIP_EF_UTF_8_NAME, nameEfData.length, nameEfData, LIBZIP_EF_BOTH⟩]
      else []
    if isLocal = false ∧ comEnc = .utf8Known then
      ⟨LIBZIP_EF_UTF_8_COMMENT, comEfData.length, comEfData, LIBZIP_EF_BOTH⟩ :: ef
    else ef

/-- C cast of a signed `int` compression method to `libzip_uint16_t`. -/
def u16OfInt (v : Int) : Nat := (v % 65536).toNat

/-- Payload of the synthesized WinZip AES extra field (zip_dirent.c lines
890-893). -/
def winzipAesEfData (de : Dirent) : List Nat :=
  le16 2 ++ [65, 69] ++ [de.encryption_method &&& 0xff] ++
    le16 (u16OfInt de.comp_method)

/-- The observable output of `_libzip_dirent_write` needed by the claims:
the synthesized extra-field chain (written right after the filename, in
list order), the fixed CRC/size/offset fields of the header, the written
version-needed, and the return value (1 when ZIP64 was emitted). -/
structure DirentWriteOut where
  efs : List EfRec
  crcField : Nat
  compField : Nat
  uncompField : Nat
  offsetField : Option Nat
  versionNeeded : Nat
  bitflagsOut : Nat
  retIsZip64 : Bool
deriving Repr, DecidableEq

/-- `_libzip_dirent_write` (zip_dirent.c lines 788-1033), restricted to the
fields of `DirentWriteOut`; `wantTorrentzip` is `LIBZIP_WANT_TORRENTZIP(za)`
(it suppresses the caller-supplied extra fields and normalizes times, but
does not affect the synthesized chain or the size fields). -/
def direntWrite (wantTorrentzip : Bool) (de : Dirent) (flags : Nat)
    (nameEnc comEnc : ZEncoding) (nameEfData comEfData : List Nat) :
    DirentWriteOut :=
  let utf8able := (nameEnc = .utf8Known ∧ comEnc = .ascii) ∨
    (nameEnc = .ascii ∧ comEnc = .utf8Known) ∨
    (nameEnc = .utf8Known ∧ comEnc = .utf8Known)
  let bitflags1 := if utf8able then de.bitflags ||| LIBZIP_GPBF_ENCODING_UTF_8
    else de.bitflags &&& (65535 - LIBZIP_GPBF_ENCODING_UTF_8)
  let bitflags2 := if de.encryption_method = LIBZIP_EM_NONE then
      bitflags1 &&& (65535 - LIBZIP_GPBF_ENCRYPTED)
    else bitflags1 ||| LIBZIP_GPBF_ENCRYPTED
  let isReallyZip64 := needsZip64 de flags
  let isZip64 :=
    decide ((flags &&& (LIBZIP_FL_LOCAL ||| LIBZIP_FL_FORCE_ZIP64)) =
      (LIBZIP_FL_LOCAL ||| LIBZIP_FL_FORCE_ZIP64)) || isReallyZip64
  let isWinzipAes := decide (de.encryption_method = LIBZIP_EM_AES_128) ||
    decide (de.encryption_method = LIBZIP_EM_AES_192) ||
    decide (de.encryption_method = LIBZIP_EM_AES_256)
  let ef0 := direntWriteUtf8Chain (flags &&& LIBZIP_FL_LOCAL ≠ 0) nameEnc comEnc
    nameEfData comEfData
  let ef1 := if isZip64 then
      ⟨LIBZIP_EF_ZIP64, (zip64EfPayload de flags).length, zip64EfPayload de flags,
        LIBZIP_EF_BOTH⟩ :: ef0
    else ef0
  let ef2 := if isWinzipAes then
      ⟨LIBZIP_EF_WINLIBZIP_AES, EF_WINLIBZIP_AES_SIZE, winzipAesEfData de,
        LIBZIP_EF_BOTH⟩ :: ef1
    else ef1
  { efs := ef2
    crcField := if isWinzipAes ∧ de.uncomp_size < 20 then 0 else de.crc
    compField :=
      if (flags &&& LIBZIP_FL_LOCAL) = LIBZIP_FL_LOCAL ∧
          (de.comp_size ≥ LIBZIP_UINT32_MAX ∨ de.uncomp_size ≥ LIBZIP_UINT32_MAX) then
        LIBZIP_UINT32_MAX
      else if de.comp_size < LIBZIP_UINT32_MAX then de.comp_size
      else LIBZIP_UINT32_MAX
    uncompField :=
      if (flags &&& LIBZIP_FL_LOCAL) = LIBZIP_FL_LOCAL ∧
          (de.comp_size ≥ LIBZIP_UINT32_MAX ∨ de.uncomp_size ≥ LIBZIP_UINT32_MAX) then
        LIBZIP_UINT32_MAX
      else if de.uncomp_size < LIBZIP_UINT32_MAX then de.uncomp_size
      else LIBZIP_UINT32_MAX
    offsetField :=
      if (flags &&& LIBZIP_FL_LOCAL) = 0 then
        some (if de.offset < LIBZIP_UINT32_MAX then de.offset else LIBZIP_UINT32_MAX)
      else none
    versionNeeded := max (if isReallyZip64 = true then 45 else 0) de.version_needed
    bitflagsOut := bitflags2
    retIsZip64 := isZip64 }

/-! ## CRC pass-through layer (lib/zip_source_crc.c)

`crc_read` is the layered callback; the `LIBZIP_SOURCE_READ` command is
modelled.  The lower source's answer is `none` on error or `some bytes`
(`n = bytes.length`, 0 at EOF); `libzip_source_stat` on the lower chain
yields the merged stat or fails.  The CRC-32 primitive is an external
collaborator, passed in as `crcUpdate` (`crc32(crc, buf, len)` over a byte
slice). -/

structure ZStat where
  valid : Nat
  size : Nat
  crc : Nat
deriving Repr, DecidableEq

def LIBZIP_STAT_SIZE : Nat := 0x0004
def LIBZIP_STAT_CRC : Nat := 0x0020

structure CrcCtx where
  validate : Bool
  crc_complete : Bool
  size : Nat
  position : Nat
  crc_position : Nat
  crc : Nat
deriving Repr, DecidableEq

/-- The accumulator loop of `crc_read` (zip_source_crc.c lines 125-130):
`crc32` is fed chunks of at most `UINT_MAX` (2^32 − 1) bytes starting at
`crc_position - position` inside the freshly read block. -/
def crcChunkLoop (crcUpdate : Nat → List Nat → Nat) (data : List Nat)
    (n : Nat) : Nat → Nat → Nat → Nat × Nat
  | i, crc, crc_position =>
    if h : i < n then
      let nn := min 4294967295 (n - i)
      crcChunkLoop crcUpdate data n (i + nn)
        (crcUpdate crc ((data.drop i).take nn)) (crc_position + nn)
    else (crc, crc_position)
termination_by i => n - i
decreasing_by
  simp only [min_def]
  split_ifs <;> omega

/-- The `LIBZIP_SOURCE_READ` arm of `crc_read` (zip_source_crc.c lines
91-133).  On an error return the C code also leaves mutated context
fields behind, but the caller only observes the error, so the model
returns just the error pair. -/
def crcRead (crcUpdate : Nat → List Nat → Nat) (srcErr : ZErr)
    (ctx : CrcCtx) (lower : Option (List Nat)) (stat : Option ZStat) :
    Except ZErr (Nat × CrcCtx) :=
  match lower with
  | none => .error srcErr
  | some data =>
    let n := data.length
    if n = 0 then
      if ctx.crc_position = ctx.position then
        let ctx1 := { ctx with crc_complete := true, size := ctx.position }
        if ctx1.validate then
          match stat with
          | none => .error srcErr
          | some st =>
            if st.valid &&& LIBZIP_STAT_CRC ≠ 0 ∧ st.crc ≠ ctx1.crc then
              .error ⟨LIBZIP_ER_CRC, 0⟩
            else if st.valid &&& LIBZIP_STAT_SIZE ≠ 0 ∧ st.size ≠ ctx1.size then
              .error ⟨LIBZIP_ER_INCONS,
                MAKE_DETAIL_WITH_INDEX LIBZIP_ER_DETAIL_INVALID_FILE_LENGTH
                  MAX_DETAIL_INDEX⟩
            else .ok (0, { ctx1 with position := ctx1.position + n })
        else .ok (0, { ctx1 with position := ctx1.position + n })
      else .ok (0, { ctx with position := ctx.position + n })
    else
      if ctx.crc_complete = false ∧ ctx.position ≤ ctx.crc_position then
        let start := ctx.crc_position - ctx.position
        let r := crcChunkLoop crcUpdate data n start ctx.crc ctx.crc_position
        .ok (n,
          { ctx with
            crc := r.1
            crc_position := r.2
            position := ctx.position + n })
      else .ok (n, { ctx with position := ctx.position + n })

/-! ## EOCD parsing (lib/zip_open.c)

`_libzip_read_eocd` reads the classic 22-byte EOCD from the tail buffer
positioned at the candidate; `_libzip_read_eocd64` reads the 20-byte
locator from the tail buffer and the 56-byte EOCD64 record, from the tail
buffer if it lies inside it and through a source seek plus read otherwise —
either way the cursor it parses covers the bytes at `eocd_offset`, passed
here as `rec0`. -/

def EOCD64_MAGIC : List Nat := [0x50, 0x4b, 0x06, 0x06]

/-- `errno` `EFBIG` as on the reference platform. -/
def EFBIG : Nat := 27

structure CDirSummary where
  nentry : Nat
  size : Nat
  offset : Nat
  is_zip64 : Bool
deriving Repr, DecidableEq

/-- `_libzip_read_eocd` (zip_open.c lines 683-739).  The 4 bytes after the
magic are read as one u32 — non-zero exactly when the number-of-this-disk
or the cdir-start-disk u16 field is non-zero.  The `offset + size` sum of
two u32 values cannot wrap the u64, so the C overflow test
`offset + size < offset` is never true; it is kept verbatim. -/
def readEocd (b0 : ZBuffer) (buf_offset : Nat) (flags : Nat) :
    Except ZErr CDirSummary :=
  if b0.left < EOCDLEN then
    .error ⟨LIBZIP_ER_INCONS, LIBZIP_ER_DETAIL_EOCD_LENGTH_INVALID⟩
  else
    let eocd_offset := b0.offsetVal
    let b1 := (b0.get 4).2
    if (b1.get32).1 ≠ 0 then .error ⟨LIBZIP_ER_MULTIDISK, 0⟩
    else
      let b2 := (b1.get32).2
      let i := (b2.get16).1
      let b3 := (b2.get16).2
      let nentry := (b3.get16).1
      let b4 := (b3.get16).2
      if nentry ≠ i then .error ⟨LIBZIP_ER_NOZIP, 0⟩
      else
        let size := (b4.get32).1
        let b5 := (b4.get32).2
        let offset := (b5.get32).1
        if offset + size < offset then .error ⟨LIBZIP_ER_SEEK, EFBIG⟩
        else if offset + size > buf_offset + eocd_offset then
          .error ⟨LIBZIP_ER_INCONS, LIBZIP_ER_DETAIL_CDIR_OVERLAPS_EOCD⟩
        else if flags &&& LIBZIP_CHECKCONS ≠ 0 ∧
            offset + size ≠ buf_offset + eocd_offset then
          .error ⟨LIBZIP_ER_INCONS, LIBZIP_ER_DETAIL_CDIR_LENGTH_INVALID⟩
        else .ok ⟨nentry, size, offset, false⟩

/-- The disk-number handling of `_libzip_read_eocd64` (zip_open.c lines
813-835): `num_disks`/`eocd_disk` are the two 16-bit halves of the
locator's disk-with-EOCD64 field, `num_disks64`/`eocd_disk64` the 32-bit
number-of-this-disk and cdir-start-disk fields of the EOCD64 record; a
locator half of 0xffff is replaced by the EOCD64 value, a disagreement is
rejected only under `CHECKCONS`, and `MULTIDISK` is raised on the merged
values. -/
def eocd64DiskCheck (flags : Nat) (num_disks eocd_disk num_disks64
    eocd_disk64 : Nat) : Option ZErr :=
  let nd := if num_disks = 0xffff then num_disks64 else num_disks
  let ed := if eocd_disk = 0xffff then eocd_disk64 else eocd_disk
  if flags &&& LIBZIP_CHECKCONS ≠ 0 ∧ (ed ≠ eocd_disk64 ∨ nd ≠ num_disks64) then
    some ⟨LIBZIP_ER_INCONS, LIBZIP_ER_DETAIL_EOCD64_MISMATCH⟩
  else if nd ≠ 0 ∨ ed ≠ 0 then some ⟨LIBZIP_ER_MULTIDISK, 0⟩
  else none

/-- `_libzip_read_eocd64` (zip_open.c lines 742-891); `loc0` is the tail
buffer positioned at the EOCD64 locator, `rec0` a cursor over the bytes at
the locator's `eocd_offset` (the tail buffer repositioned, or the 56-byte
block read from the source).  The final `offset + size` is u64 arithmetic;
the wrap test compares the wrapped sum with `offset`. -/
def readEocd64 (loc0 : ZBuffer) (rec0 : ZBuffer) (buf_offset : Nat)
    (flags : Nat) : Except ZErr CDirSummary :=
  let eocdloc_offset := loc0.offsetVal
  let l1 := (loc0.get 4).2
  let (num_disks, l2) := l1.get16
  let (eocd_disk, l3) := l2.get16
  let (eocd_offset, _l4) := l3.get64
  if eocd_offset > LIBZIP_INT64_MAX then .error ⟨LIBZIP_ER_SEEK, EFBIG⟩
  else if eocd_offset + EOCD64LEN > eocdloc_offset + buf_offset then
    .error ⟨LIBZIP_ER_INCONS, LIBZIP_ER_DETAIL_EOCD64_OVERLAPS_EOCD⟩
  else
    match rec0.get 4 with
    | (none, _) => .error ⟨LIBZIP_ER_INCONS, LIBZIP_ER_DETAIL_EOCD64_WRONG_MAGIC⟩
    | (some magic, r1) =>
      if magic ≠ EOCD64_MAGIC then
        .error ⟨LIBZIP_ER_INCONS, LIBZIP_ER_DETAIL_EOCD64_WRONG_MAGIC⟩
      else
        let (size1, r2) := r1.get64
        if flags &&& LIBZIP_CHECKCONS ≠ 0 ∧
            size1 + eocd_offset + 12 ≠ buf_offset + eocdloc_offset then
          .error ⟨LIBZIP_ER_INCONS, LIBZIP_ER_DETAIL_EOCD64_OVERLAPS_EOCD⟩
        else
          let r3 := (r2.get 4).2
          let (num_disks64, r4) := r3.get32
          let (eocd_disk64, r5) := r4.get32
          match eocd64DiskCheck flags num_disks eocd_disk num_disks64
              eocd_disk64 with
          | some e => .error e
          | none =>
            let (nentry, r6) := r5.get64
            let (i2, r7) := r6.get64
            if nentry ≠ i2 then .error ⟨LIBZIP_ER_MULTIDISK, 0⟩
            else
              let (size2, r8) := r7.get64
              let (offset2, r9) := r8.get64
              if r9.ok = false then .error ⟨LIBZIP_ER_INTERNAL, 0⟩
              else if offset2 > LIBZIP_INT64_MAX ∨
                  (offset2 + size2) % U64MOD < offset2 then
                .error ⟨LIBZIP_ER_SEEK, EFBIG⟩
              else if offset2 + size2 > buf_offset + eocd_offset then
                .error ⟨LIBZIP_ER_INCONS, LIBZIP_ER_DETAIL_CDIR_OVERLAPS_EOCD⟩
              else if flags &&& LIBZIP_CHECKCONS ≠ 0 ∧
                  offset2 + size2 ≠ buf_offset + eocd_offset then
                .error ⟨LIBZIP_ER_INCONS, LIBZIP_ER_DETAIL_CDIR_OVERLAPS_EOCD⟩
              else if nentry > size2 / CDENTRYSIZE then
                .error ⟨LIBZIP_ER_INCONS, LIBZIP_ER_DETAIL_CDIR_INVALID⟩
              else .ok ⟨nentry, size2, offset2, true⟩

/-! ## Name hash index (lib/zip_hash.c)

Separate-chaining hash table; a bucket is the chain in head-to-tail order
(`entry->next` links).  Names are the C-string bytes of the filename
(NUL-free).  The fill-ratio comparisons are C `double` comparisons against
.75 and .01; table sizes are powers of two between 256 and 2^31, for which
`nentries > size * .75` equals `4 * nentries > 3 * size` exactly and
`nentries < size * .01` equals `100 * nentries < size` exactly (a power of
two is never within the double-rounding error of a multiple of 100), so
the integer forms below are equivalent. -/

structure HashEntry where
  name : List Nat
  orig_index : Int
  current_index : Int
  hash_value : Nat
deriving Repr, DecidableEq

structure ZHash where
  table : List (List HashEntry)
  nentries : Nat
deriving Repr, DecidableEq

def HASH_MULTIPLIER : Nat := 33
def HASH_START : Nat := 5381
def HASH_MIN_SIZE : Nat := 256
def HASH_MAX_SIZE : Nat := 0x80000000

/-- `hash_string` (zip_hash.c lines 78-92): djb2, accumulated in a u64 but
reduced `% 0x100000000` at every step. -/
def hashString (name : List Nat) : Nat :=
  name.foldl (fun value byte => (value * HASH_MULTIPLIER + byte) % 4294967296)
    HASH_START

/-- One node move of `hash_resize`: prepend the entry to the new bucket at
`hash_value % new_size`. -/
def hashInsStep (new_size : Nat) (nt : List (List HashEntry))
    (e : HashEntry) : List (List HashEntry) :=
  nt.set (e.hash_value % new_size)
    (e :: nt.getD (e.hash_value % new_size) [])

/-- `hash_resize` (zip_hash.c lines 96-132): walk the buckets in order and
the chains head-to-tail, prepending each node to its new bucket. -/
def hashResize (h : ZHash) (new_size : Nat) : ZHash :=
  if new_size = h.table.length then h
  else
    { table := h.table.join.foldl (hashInsStep new_size)
        (List.replicate new_size [])
      nentries := h.nentries }

/-- The chain-scan predicate of `_libzip_hash_add` / `_libzip_hash_delete`:
`entry->hash_value == hash_value && strcmp(name, entry->name) == 0`. -/
def hashMatch (hv : Nat) (name : List Nat) (e : HashEntry) : Bool :=
  e.hash_value == hv && e.name == name

/-- In-place field update of the first chain node satisfying `p`. -/
def bucketUpdate (p : HashEntry → Bool) (f : HashEntry → HashEntry) :
    List HashEntry → List HashEntry
  | [] => []
  | e :: rest => if p e then f e :: rest else e :: bucketUpdate p f rest

/-- Unlink of the first chain node satisfying `p`. -/
def bucketRemoveFirst (p : HashEntry → Bool) :
    List HashEntry → List HashEntry
  | [] => []
  | e :: rest => if p e then rest else e :: bucketRemoveFirst p rest

/-- `_libzip_hash_add` (zip_hash.c lines 204-259).  In C a freshly created
node gets `orig_index = -1` at creation and both index fields are assigned
after the possible grow-resize; the resize moves nodes without copying, so
assigning before the resize (as below) yields the same table. -/
def hashAdd (h0 : ZHash) (name : List Nat) (index : Nat) (flags : Nat) :
    Except ZErr ZHash :=
  if index > LIBZIP_INT64_MAX then .error ⟨LIBZIP_ER_INVAL, 0⟩
  else
    let h := if h0.table.length = 0 then hashResize h0 HASH_MIN_SIZE else h0
    let hv := hashString name
    let ti := hv % h.table.length
    let bucket := h.table.getD ti []
    match bucket.find? (hashMatch hv name) with
    | some e =>
      if (flags &&& LIBZIP_FL_UNCHANGED ≠ 0 ∧ e.orig_index ≠ -1) ∨
          e.current_index ≠ -1 then
        .error ⟨LIBZIP_ER_EXISTS, 0⟩
      else
        .ok { h with
          table := h.table.set ti (bucketUpdate (hashMatch hv name)
            (fun e' => { e' with
              orig_index := if flags &&& LIBZIP_FL_UNCHANGED ≠ 0 then
                  (index : Int)
                else e'.orig_index
              current_index := (index : Int) }) bucket) }
    | none =>
      let e : HashEntry :=
        ⟨name,
          if flags &&& LIBZIP_FL_UNCHANGED ≠ 0 then (index : Int) else -1,
          (index : Int), hv⟩
      let h1 : ZHash :=
        { table := h.table.set ti (e :: bucket), nentries := h.nentries + 1 }
      if 4 * h1.nentries > 3 * h1.table.length ∧
          h1.table.length < HASH_MAX_SIZE then
        .ok (hashResize h1 (h1.table.length * 2))
      else .ok h1

/-- `_libzip_hash_delete` (zip_hash.c lines 263-307). -/
def hashDelete (h : ZHash) (name : List Nat) : Except ZErr ZHash :=
  if h.nentries > 0 then
    let hv := hashString name
    let ti := hv % h.table.length
    let bucket := h.table.getD ti []
    match bucket.find? (hashMatch hv name) with
    | none => .error ⟨LIBZIP_ER_NOENT, 0⟩
    | some e =>
      if e.orig_index = -1 then
        let h1 : ZHash :=
          { table := h.table.set ti (bucketRemoveFirst (hashMatch hv name)
              bucket)
            nentries := h.nentries - 1 }
        if 100 * h1.nentries < h1.table.length ∧
            h1.table.length > HASH_MIN_SIZE then
          .ok (hashResize h1 (h1.table.length / 2))
        else .ok h1
      else
        .ok { h with
          table := h.table.set ti (bucketUpdate (hashMatch hv name)
            (fun e' => { e' with current_index := -1 }) bucket) }
  else .error ⟨LIBZIP_ER_NOENT, 0⟩

/-- All nodes of the table, in bucket-then-chain order. -/
def allEntries (h : ZHash) : List HashEntry := h.table.join

/-- Well-formedness maintained by the C code: every node's cached hash is
the hash of its name and it sits in the right bucket; names are unique
across the table; `nentries` counts the nodes. -/
def HashWF (h : ZHash) : Prop :=
  (∀ i, ∀ hi : i < h.table.length, ∀ e ∈ h.table.get ⟨i, hi⟩,
    e.hash_value = hashString e.name ∧ e.hash_value % h.table.length = i) ∧
  (allEntries h).Pairwise (fun a b => a.name ≠ b.name) ∧
  h.nentries = (allEntries h).length

end LibZip

namespace LibZip

/-! ## Theorems -/

/-- C10: every byte-buffer cursor operation preserves `offset ≤ size`;
`peek` and `get` check u64 wrap-around of `offset+length` and over-run, and
on violation clear the sticky `ok` flag and return null without advancing;
`set_offset` rejects offsets greater than `size` and `skip` rejects
wrapping offsets; a successful `get` returns exactly the slice
`data[offset .. offset+length)`, which lies wholly inside the backing
slice. -/
theorem ZBuffer.peek_eq (b : ZBuffer) (n : Nat) (h : b.Inv) (hn : n < U64MOD) :
    b.peek n = if b.ok = true ∧ b.offset + n ≤ b.size then
        (some ((b.data.drop b.offset).take n), b)
      else (none, { b with ok := false }) := by
  obtain ⟨hOff, hSize⟩ := h
  unfold ZBuffer.peek
  unfold U64MOD at *
  rcases Nat.lt_or_ge (b.offset + n) 18446744073709551616 with hlt | hge
  · rw [Nat.mod_eq_of_lt hlt]
    by_cases hok : b.ok <;> split_ifs <;> simp_all <;> omega
  · have hmod : (b.offset + n) % 18446744073709551616 =
        b.offset + n - 18446744073709551616 := by omega
    rw [hmod]
    by_cases hok : b.ok <;> split_ifs <;> simp_all <;> omega

theorem ZBuffer.get_eq (b : ZBuffer) (n : Nat) (h : b.Inv) (hn : n < U64MOD) :
    b.get n = if b.ok = true ∧ b.offset + n ≤ b.size then
        (some ((b.data.drop b.offset).take n), { b with offset := b.offset + n })
      else (none, { b with ok := false }) := by
  unfold ZBuffer.get
  rw [ZBuffer.peek_eq b n h hn]
  split_ifs <;> rfl

/-- C10: every byte-buffer cursor operation preserves `offset ≤ size`;
`peek` and `get` check u64 wrap-around of `offset+length` and over-run, and
on violation clear the sticky `ok` flag and return null without advancing;
`set_offset` rejects offsets greater than `size` and `skip` rejects
wrapping offsets; a successful `get` returns exactly the slice
`data[offset .. offset+length)`, which lies wholly inside the backing
slice. -/
theorem claim_C10_buffer_cursor_bounds (b : ZBuffer) (n m : Nat)
    (hInv : b.Inv) (hn : n < U64MOD) (hm : m < U64MOD) :
    ((b.peek n).2.Inv ∧
      ((b.peek n).1 = none → (b.peek n).2 = { b with ok := false }) ∧
      (∀ d, (b.peek n).1 = some d → (b.peek n).2 = b ∧ b.offset + n ≤ b.size)) ∧
    ((b.get n).2.Inv ∧
      ((b.get n).1 = none → (b.get n).2 = { b with ok := false }) ∧
      (∀ d, (b.get n).1 = some d →
        b.offset + n ≤ b.size ∧ d = (b.data.drop b.offset).take n ∧
        d.length = n ∧ (b.get n).2.offset = b.offset + n)) ∧
    ((b.setOffset m).2.Inv ∧
      ((b.setOffset m).1 = -1 ↔ m > b.size) ∧
      ((b.setOffset m).1 = -1 → (b.setOffset m).2 = { b with ok := false })) ∧
    ((b.skip n).2.Inv ∧
      (b.offset + n ≥ U64MOD →
        (b.skip n).1 = -1 ∧ (b.skip n).2 = { b with ok := false })) := by
  have hpk := ZBuffer.peek_eq b n hInv hn
  have hgt := ZBuffer.get_eq b n hInv hn
  obtain ⟨hOff, hSize⟩ := hInv
  refine ⟨⟨?_, ?_, ?_⟩, ⟨?_, ?_, ?_⟩, ⟨?_, ?_, ?_⟩, ⟨?_, ?_⟩⟩
  · rw [hpk]; split_ifs <;> exact ⟨hOff, hSize⟩
  · rw [hpk]; split_ifs <;> simp
  · intro d; rw [hpk]; split_ifs with hc <;> simp_all
  · rw [hgt]; split_ifs with hc
    · exact ⟨hc.2, hSize⟩
    · exact ⟨hOff, hSize⟩
  · rw [hgt]; split_ifs <;> simp
  · intro d; rw [hgt]; split_ifs with hc
    · intro hd
      simp only [Option.some.injEq] at hd
      subst hd
      refine ⟨hc.2, rfl, ?_, rfl⟩
      have h2 := hc.2
      simp only [ZBuffer.size] at h2
      simp only [List.length_take, List.length_drop]
      omega
    · intro hd; simp at hd
  · unfold ZBuffer.setOffset
    simp only [ZBuffer.Inv, ZBuffer.size] at *
    split_ifs with hc <;> dsimp only <;> exact ⟨by omega, hSize⟩
  · unfold ZBuffer.setOffset
    simp only [ZBuffer.size] at *
    split_ifs with hc <;> simp_all
  · unfold ZBuffer.setOffset
    split_ifs with hc <;> simp_all
  · unfold ZBuffer.skip ZBuffer.setOffset
    simp only [ZBuffer.Inv, ZBuffer.size] at *
    split_ifs with h1 h2 <;> dsimp only <;> refine ⟨?_, hSize⟩ <;> omega
  · intro hwrap
    unfold ZBuffer.skip ZBuffer.setOffset
    unfold U64MOD at *
    have hmod : (b.offset + n) % 18446744073709551616 =
        b.offset + n - 18446744073709551616 := by
      omega
    simp only [hmod]
    split_ifs with hc h2 <;> first
      | exact ⟨rfl, rfl⟩
      | (exfalso; omega)

/-- Closed witness for the C10 theorem at a concrete buffer. -/
theorem claim_C10_buffer_cursor_bounds_witness :
    (ZBuffer.new [7, 8, 9]).Inv ∧
    (((ZBuffer.new [7, 8, 9]).get 2).1 = some [7, 8] →
      True) ∧
    ((((ZBuffer.new [7, 8, 9]).get 2).2.Inv ∧
      (((ZBuffer.new [7, 8, 9]).get 2).1 = none →
        ((ZBuffer.new [7, 8, 9]).get 2).2 = { ZBuffer.new [7, 8, 9] with ok := false }) ∧
      (∀ d, ((ZBuffer.new [7, 8, 9]).get 2).1 = some d →
        (ZBuffer.new [7, 8, 9]).offset + 2 ≤ (ZBuffer.new [7, 8, 9]).size ∧
        d = ((ZBuffer.new [7, 8, 9]).data.drop (ZBuffer.new [7, 8, 9]).offset).take 2 ∧
        d.length = 2 ∧
        ((ZBuffer.new [7, 8, 9]).get 2).2.offset = (ZBuffer.new [7, 8, 9]).offset + 2))) := by
  refine ⟨by decide, fun _ => trivial, ?_⟩
  exact (claim_C10_buffer_cursor_bounds (ZBuffer.new [7, 8, 9]) 2 1
    (by decide) (by decide) (by decide)).2.1

theorem efSize_foldl (flags : Nat) (ef : List EfRec) (acc : Nat)
    (hacc : acc < 65536) :
    ef.foldl
      (fun size e =>
        if e.flags &&& flags &&& LIBZIP_EF_BOTH ≠ 0 then (size + 4 + e.size) % 65536
        else size)
      acc = (acc + efSizeTrue ef flags) % 65536 := by
  induction ef generalizing acc with
  | nil => simp [efSizeTrue, Nat.mod_eq_of_lt hacc]
  | cons e rest ih =>
    simp only [List.foldl_cons, efSizeTrue]
    by_cases hm : e.flags &&& flags &&& LIBZIP_EF_BOTH ≠ 0
    · rw [if_pos hm, if_pos hm,
        ih ((acc + 4 + e.size) % 65536) (Nat.mod_lt _ (by norm_num))]
      omega
    · rw [if_neg hm, if_neg hm, ih acc hacc]
      omega

/-- C9: `_libzip_ef_size` returns the matched-scope sum of `4 + size`
reduced mod 2^16 (the accumulator is a `libzip_uint16_t`), and for lists
whose true serialized length exceeds 65535 the result silently wraps and
understates the length — shown on a concrete two-record list whose true
length is 131072 while the function returns 0. -/
theorem claim_C9_ef_size_wraps :
    (∀ (ef : List EfRec) (flags : Nat),
      efSize ef flags = efSizeTrue ef flags % 65536) ∧
    (efSizeTrue
        [⟨10, 65532, List.replicate 65532 0, LIBZIP_EF_BOTH⟩,
         ⟨11, 65532, List.replicate 65532 0, LIBZIP_EF_BOTH⟩] LIBZIP_EF_BOTH
      = 131072 ∧
     efSize
        [⟨10, 65532, List.replicate 65532 0, LIBZIP_EF_BOTH⟩,
         ⟨11, 65532, List.replicate 65532 0, LIBZIP_EF_BOTH⟩] LIBZIP_EF_BOTH
      = 0) := by
  refine ⟨fun ef flags => ?_, by decide, by decide⟩
  unfold efSize
  rw [efSize_foldl flags ef 0 (by norm_num)]
  simp

theorem le16_bytes (v : Nat) (h : v ≤ 65535) : le16 v = [v % 256, v / 256] := by
  unfold le16
  have : v / 256 % 256 = v / 256 := Nat.mod_eq_of_lt (by omega)
  rw [this]

theorem le16_recombine (b0 b1 : Nat) (h0 : b0 < 256) (h1 : b1 < 256) :
    le16 (b0 + 256 * b1) = [b0, b1] := by
  unfold le16
  rw [show (b0 + 256 * b1) % 256 = b0 by omega,
    show (b0 + 256 * b1) / 256 % 256 = b1 by omega]

theorem efParseGo_small_eq (flags : Nat) (tail : List Nat)
    (hlen : tail.length ≤ 3) :
    efParseGo flags tail =
      if tail = [] then .ok []
      else if tail.length ≥ 4 ∨ tail.any (fun x => x ≠ 0) then
        .error ⟨LIBZIP_ER_INCONS, LIBZIP_ER_DETAIL_EF_TRAILING_GARBAGE⟩
      else .ok [] := by
  match tail, hlen with
  | [], _ => rw [efParseGo] <;> nofun
  | [a], _ => rw [efParseGo] <;> nofun
  | [a, b], _ => rw [efParseGo] <;> nofun
  | [a, b, c], _ => rw [efParseGo] <;> nofun

theorem efParseGo_append (flags : Nat) (l : List EfRec) (tail : List Nat)
    (h : ∀ e ∈ l, EfWF flags e) :
    efParseGo flags (efSerialize l ++ tail) =
      (efParseGo flags tail).map (fun r => l ++ r) := by
  induction l with
  | nil =>
    simp only [efSerialize, List.nil_append]
    cases efParseGo flags tail <;> rfl
  | cons e rest ih =>
    obtain ⟨hid, hsz, hlen, hfl⟩ := h e (by simp)
    have hrest : ∀ e' ∈ rest, EfWF flags e' := fun e' he' => h e' (by simp [he'])
    have hshape : efSerialize (e :: rest) ++ tail =
        e.id % 256 :: e.id / 256 :: e.size % 256 :: e.size / 256 ::
          (e.data ++ (efSerialize rest ++ tail)) := by
      simp [efSerialize, le16_bytes e.id hid, le16_bytes e.size hsz]
    rw [hshape]
    rw [efParseGo]
    have hfid : e.id % 256 + 256 * (e.id / 256) = e.id := by omega
    have hflen : e.size % 256 + 256 * (e.size / 256) = e.size := by omega
    simp only [hfid, hflen]
    have hle : e.size ≤ (e.data ++ (efSerialize rest ++ tail)).length := by
      simp [List.length_append]; omega
    rw [if_pos hle]
    have hdl : e.data.length = e.size := hlen.symm
    have htake : (e.data ++ (efSerialize rest ++ tail)).take e.size = e.data := by
      rw [← hdl]; exact List.take_left e.data _
    have hdrop : (e.data ++ (efSerialize rest ++ tail)).drop e.size =
        efSerialize rest ++ tail := by
      rw [← hdl]; exact List.drop_left e.data _
    rw [htake, hdrop, ih hrest]
    cases efParseGo flags tail with
    | ok r =>
      simp only [Except.map]
      have : (⟨e.id, e.size, e.data, flags⟩ : EfRec) = e := by
        cases e; simp_all
      rw [this]
      rfl
    | error err => rfl

theorem efParseGo_pad_ok (flags : Nat) (pad : List Nat) (hlen : pad.length ≤ 3)
    (hz : ∀ x ∈ pad, x = 0) :
    efParseGo flags pad = .ok [] := by
  rw [efParseGo_small_eq flags pad hlen]
  have hany : pad.any (fun x => x ≠ 0) = false := by
    rw [List.any_eq_false]
    intro x hx
    simpa using hz x hx
  split_ifs with h1 h2
  · rfl
  · exfalso
    rcases h2 with h2 | h2
    · omega
    · rw [hany] at h2; cases h2
  · rfl

theorem efParseGo_pad_garbage (flags : Nat) (pad : List Nat)
    (h1 : 1 ≤ pad.length) (hlen : pad.length ≤ 3) (hz : ¬ ∀ x ∈ pad, x = 0) :
    efParseGo flags pad =
      .error ⟨LIBZIP_ER_INCONS, LIBZIP_ER_DETAIL_EF_TRAILING_GARBAGE⟩ := by
  have hany : pad.any (fun x => x ≠ 0) = true := by
    push_neg at hz
    obtain ⟨x, hx, hx0⟩ := hz
    simp only [List.any_eq_true]
    exact ⟨x, hx, by simpa using hx0⟩
  rw [efParseGo_small_eq flags pad hlen]
  have hne : ¬ pad = [] := by
    intro hni; subst hni; simp at h1
  rw [if_neg hne, if_pos (Or.inr (by rw [hany]))]

theorem efParseGo_ok_small (flags : Nat) (tail : List Nat) (l : List EfRec)
    (hlen : tail.length ≤ 3) (h : efParseGo flags tail = .ok l) :
    l = [] ∧ ∀ x ∈ tail, x = 0 := by
  rw [efParseGo_small_eq flags tail hlen] at h
  split_ifs at h with h1 h2
  · simp only [Except.ok.injEq] at h
    subst h1
    exact ⟨h.symm, by simp⟩
  · simp only [Except.ok.injEq] at h
    refine ⟨h.symm, fun x hx => ?_⟩
    push_neg at h2
    have h2' := h2.2
    simp only [ne_eq, Bool.not_eq_true, List.any_eq_false] at h2'
    simpa using h2' x hx

theorem efParseGo_ok_decomp (flags : Nat) :
    ∀ (n : Nat) (data : List Nat), data.length ≤ n → (∀ x ∈ data, x < 256) →
    ∀ l, efParseGo flags data = .ok l →
    (∃ pad, data = efSerialize l ++ pad ∧ pad.length ≤ 3 ∧ ∀ x ∈ pad, x = 0) ∧
    (∀ e ∈ l, EfWF flags e) := by
  intro n
  induction n with
  | zero =>
    intro data hlen _ l h
    have hd : data = [] := List.eq_nil_of_length_eq_zero (by omega)
    subst hd
    obtain ⟨hl, _⟩ := efParseGo_ok_small flags [] l (by simp) h
    subst hl
    exact ⟨⟨[], by simp [efSerialize], by simp, by simp⟩, by simp⟩
  | succ n ih =>
    intro data hlen hb l h
    match data, hlen, hb, h with
    | [], _, hb, h | [a], _, hb, h | [a, b], _, hb, h | [a, b, c], _, hb, h =>
      obtain ⟨hl, hz⟩ := efParseGo_ok_small flags _ l (by simp) h
      subst hl
      exact ⟨⟨_, by simp [efSerialize], by simp, hz⟩, by simp⟩
    | b0 :: b1 :: b2 :: b3 :: rest, hlen, hb, h =>
      rw [efParseGo] at h
      split_ifs at h with hfit
      · cases hrec : efParseGo flags (rest.drop (b2 + 256 * b3)) with
        | error err => rw [hrec] at h; cases h
        | ok l' =>
          rw [hrec] at h
          simp only [Except.ok.injEq] at h
          subst h
          have hdlen : (rest.drop (b2 + 256 * b3)).length ≤ n := by
            simp only [List.length_cons] at hlen
            simp [List.length_drop]; omega
          have hdb : ∀ x ∈ rest.drop (b2 + 256 * b3), x < 256 := by
            intro x hx
            exact hb x (by simp [List.mem_of_mem_drop hx])
          obtain ⟨⟨pad, hpad, hpl, hpz⟩, hwf⟩ := ih _ hdlen hdb l' hrec
          have hb0 : b0 < 256 := hb b0 (by simp)
          have hb1 : b1 < 256 := hb b1 (by simp)
          have hb2 : b2 < 256 := hb b2 (by simp)
          have hb3 : b3 < 256 := hb b3 (by simp)
          refine ⟨⟨pad, ?_, hpl, hpz⟩, ?_⟩
          · simp only [efSerialize, le16_recombine b0 b1 hb0 hb1,
              le16_recombine b2 b3 hb2 hb3]
            have : rest = rest.take (b2 + 256 * b3) ++ rest.drop (b2 + 256 * b3) :=
              (List.take_append_drop _ _).symm
            conv_lhs => rw [this]
            rw [hpad]
            simp
          · intro e he
            rcases List.mem_cons.mp he with he | he
            · subst he
              refine ⟨?_, ?_, ?_, rfl⟩
              · show b0 + 256 * b1 ≤ 65535
                omega
              · show b2 + 256 * b3 ≤ 65535
                omega
              · show b2 + 256 * b3 = (rest.take (b2 + 256 * b3)).length
                rw [List.length_take]
                omega
            · exact hwf e he

theorem efParseGo_overrun (flags : Nat) (id len : Nat) (rest : List Nat)
    (hid : id ≤ 65535) (hlen : len ≤ 65535) (hfit : rest.length < len) :
    efParseGo flags (le16 id ++ le16 len ++ rest) =
      .error ⟨LIBZIP_ER_INCONS, LIBZIP_ER_DETAIL_INVALID_EF_LENGTH⟩ := by
  rw [le16_bytes id hid, le16_bytes len hlen]
  show efParseGo flags (id % 256 :: id / 256 :: len % 256 :: len / 256 :: rest) = _
  rw [efParseGo]
  rw [show len % 256 + 256 * (len / 256) = len by omega]
  rw [if_neg (by omega)]

/-- C8: `_libzip_ef_parse` succeeds with the in-order record list exactly
when the slice is a well-formed sequence of `[id_le16, len_le16, data[len]]`
records followed by at most 3 trailing NUL bytes; a declared record length
that overruns the slice yields `INCONS`/`INVALID_EF_LENGTH`; a short
(1 to 3 byte) trailing remainder containing a non-zero byte yields
`INCONS`/`EF_TRAILING_GARBAGE` (a remainder of 4 or more bytes is never
treated as trailing padding — the loop consumes it as a record). -/
theorem claim_C8_ef_parse_characterization (data : List Nat) (flags : Nat)
    (hbytes : ∀ x ∈ data, x < 256) :
    (∀ l, efParse data flags = .ok l ↔
      ((∃ pad, data = efSerialize l ++ pad ∧ pad.length ≤ 3 ∧ ∀ x ∈ pad, x = 0) ∧
        ∀ e ∈ l, EfWF flags e)) ∧
    (∀ l id len rest, id ≤ 65535 → len ≤ 65535 → (∀ e ∈ l, EfWF flags e) →
      data = efSerialize l ++ (le16 id ++ le16 len ++ rest) → rest.length < len →
      efParse data flags =
        .error ⟨LIBZIP_ER_INCONS, LIBZIP_ER_DETAIL_INVALID_EF_LENGTH⟩) ∧
    (∀ l pad, (∀ e ∈ l, EfWF flags e) → data = efSerialize l ++ pad →
      1 ≤ pad.length → pad.length ≤ 3 → ¬(∀ x ∈ pad, x = 0) →
      efParse data flags =
        .error ⟨LIBZIP_ER_INCONS, LIBZIP_ER_DETAIL_EF_TRAILING_GARBAGE⟩) := by
  refine ⟨fun l => ⟨fun h => ?_, fun h => ?_⟩, fun l id len rest hid hlen hwf hd hfit => ?_,
    fun l pad hwf hd h1 h3 hnz => ?_⟩
  · exact efParseGo_ok_decomp flags data.length data (le_refl _) hbytes l h
  · obtain ⟨⟨pad, hpad, hpl, hpz⟩, hwf⟩ := h
    unfold efParse
    rw [hpad, efParseGo_append flags l pad hwf, efParseGo_pad_ok flags pad hpl hpz]
    simp [Except.map]
  · unfold efParse
    rw [hd, efParseGo_append flags l _ hwf,
      efParseGo_overrun flags id len rest hid hlen hfit]
    rfl
  · unfold efParse
    rw [hd, efParseGo_append flags l pad hwf,
      efParseGo_pad_garbage flags pad h1 h3 hnz]
    rfl

/-- Closed witness for the C8 theorem: a slice holding one record
`(id 5, len 2, payload 9 9)` plus one NUL padding byte parses to exactly
that record. -/
theorem claim_C8_ef_parse_characterization_witness :
    (∀ x ∈ ([5, 0, 2, 0, 9, 9, 0] : List Nat), x < 256) ∧
    efParse [5, 0, 2, 0, 9, 9, 0] LIBZIP_EF_BOTH =
      .ok [⟨5, 2, [9, 9], LIBZIP_EF_BOTH⟩] := by
  refine ⟨by decide, ?_⟩
  exact ((claim_C8_ef_parse_characterization [5, 0, 2, 0, 9, 9, 0] LIBZIP_EF_BOTH
      (by decide)).1 [⟨5, 2, [9, 9], LIBZIP_EF_BOTH⟩]).mpr
    ⟨⟨[0], by decide, by decide, by decide⟩, by decide⟩

theorem findCd_foldl_fromScore {α : Type} (cc : Bool) (score : α → Int) :
    ∀ (cands : List (Option α)) (h : α),
    cands.foldl (findCdStep cc score) (some h, score h) =
      (some (selBest score h (cands.filterMap id)),
        score (selBest score h (cands.filterMap id))) := by
  intro cands
  induction cands with
  | nil => intro h; simp [selBest]
  | cons head rest ih =>
    intro h
    cases head with
    | none => simpa [findCdStep] using ih h
    | some c =>
      simp only [List.foldl_cons, List.filterMap_cons, id_eq, findCdStep, ite_self]
      by_cases hlt : score h < score c
      · rw [if_pos hlt, ih c]
        simp [selBest, hlt]
      · rw [if_neg hlt, ih h]
        simp [selBest, hlt]

theorem findCd_foldl_fromZero {α : Type} (cc : Bool) (score : α → Int) :
    ∀ (cands : List (Option α)) (h : α),
    cands.foldl (findCdStep cc score) (some h, 0) =
      (match cands.filterMap id with
        | [] => (some h, 0)
        | _ :: _ =>
          (some (selBest score h (cands.filterMap id)),
            score (selBest score h (cands.filterMap id)))) := by
  intro cands
  induction cands with
  | nil => intro h; simp
  | cons head rest ih =>
    intro h
    cases head with
    | none => simpa [findCdStep] using ih h
    | some c =>
      simp only [List.foldl_cons, List.filterMap_cons, id_eq, findCdStep]
      rw [if_pos (by norm_num : (0 : Int) ≤ 0)]
      by_cases hlt : score h < score c
      · rw [if_pos hlt, findCd_foldl_fromScore cc score rest c]
        simp [selBest, hlt]
      · rw [if_neg hlt, findCd_foldl_fromScore cc score rest h]
        simp [selBest, hlt]

/-- C2 (amended): when several EOCD candidates parse, the scan — in both
modes — keeps the candidate with the highest `_libzip_checkcons` score,
the earliest winning ties, and fails when even the best score is −1; the
"highest offset that parses" rule of the claim holds only in the trivial
case of exactly one parsing candidate without `CHECKCONS` (candidates are
visited in increasing offset order). -/
theorem claim_C2_candidate_selection_amended {α : Type} (cc : Bool)
    (score : α → Int) (cands : List (Option α)) :
    findCentralDir cc score cands = selSpec cc score (cands.filterMap id) := by
  induction cands with
  | nil => rfl
  | cons head rest ih =>
    cases head with
    | none =>
      simpa [findCentralDir, findCdStep, List.filterMap_cons] using ih
    | some c =>
      simp only [findCentralDir, List.foldl_cons, List.filterMap_cons, id_eq,
        findCdStep]
      cases cc with
      | true =>
        rw [if_pos rfl]
        rw [findCd_foldl_fromScore true score rest c]
        cases hp : rest.filterMap id with
        | nil => simp [selSpec, selBest, hp]
        | cons p ps => simp [selSpec, selBest, hp]
      | false =>
        have hred : (if (false = true) then score c else (0 : Int)) = 0 := by simp
        rw [hred, findCd_foldl_fromZero false score rest c]
        cases hp : rest.filterMap id with
        | nil => simp [selSpec]
        | cons p ps => simp [selSpec, selBest]

/-- C2 counterexample: the scan visits candidates in increasing offset
order; with two parsing candidates where the earlier (lower-offset) one
has the larger `_libzip_checkcons` span, the earlier one is returned in
non-`CHECKCONS` mode — not the highest-offset parsing candidate as the
claim states.  (Realizable: a trailing empty-directory EOCD always scores
0, while an earlier consistent one-entry directory scores its positive
span.) -/
theorem claim_C2_candidate_selection_counterexample :
    findCentralDir false (fun n => if n = 0 then (1 : Int) else 0)
        [some 0, some 1] = some 0 ∧
    (([some 0, some 1] : List (Option Nat)).filterMap id).getLast? = some 1 ∧
    (some 0 : Option Nat) ≠ some 1 := by
  refine ⟨by decide, by decide, by decide⟩

theorem readCdirLoop_two_headers (s1 s2 : Nat) (h1 : CDENTRYSIZE ≤ s1)
    (h2 : CDENTRYSIZE ≤ s2) :
    readCdirLoop false 1 (s1 + s2) 0 [s1, s2] = .wrongCount := by
  unfold CDENTRYSIZE at h1 h2
  have step1 : readCdirLoop false 1 (s1 + s2) 0 [s1, s2] =
      readCdirLoop false 1 (s1 + s2 - s1) 1 [s2] := by
    rw [readCdirLoop,
      if_neg (show ¬(s1 + s2 = 0) by omega),
      if_neg (show ¬((0 : Nat) = 1 ∧ (false = true ∨ s1 + s2 < CDENTRYSIZE)) from
        fun h => absurd h.1 (by omega)),
      if_neg (show ¬((0 : Nat) = 1) by omega)]
  have step2 : readCdirLoop false 1 s2 1 [s2] =
      readCdirLoop false 65537 (s2 - s2) 2 [] := by
    rw [readCdirLoop,
      if_neg (show ¬(s2 = 0) by omega),
      if_neg (show ¬((1 : Nat) = 1 ∧ (false = true ∨ s2 < CDENTRYSIZE)) from
        fun h => by
          rcases h.2 with hc | hc
          · exact absurd hc (by simp)
          · exact absurd hc (by unfold CDENTRYSIZE; omega)),
      if_pos (rfl : (1 : Nat) = 1)]
  have step3 : readCdirLoop false 65537 0 2 [] = .wrongCount := by decide
  rw [step1, show s1 + s2 - s1 = s2 by omega, step2,
    show s2 - s2 = 0 by omega, step3]

/-- C3 (amended): an archive whose EOCD declares 1 entry while the
central-directory region of the recorded size holds 2 well-formed central
headers is rejected with `INCONS`/`CDIR_WRONG_ENTRIES_COUNT` under BOTH
default flags and `CHECKCONS` — after reading the declared entry the
InfoZIP growth path raises the expected count to 0x10001, so the final
`i != cd->nentry` check fails before any `CHECKCONS`-only check runs. -/
theorem claim_C3_wrong_entries_count_amended (checkcons : Bool)
    (s1 s2 : Nat) (h1 : CDENTRYSIZE ≤ s1) (h2 : CDENTRYSIZE ≤ s2) :
    readCdirEntries checkcons false 1 [s1, s2] (s1 + s2) =
      some ⟨LIBZIP_ER_INCONS, LIBZIP_ER_DETAIL_CDIR_WRONG_ENTRIES_COUNT⟩ := by
  unfold readCdirEntries
  rw [readCdirLoop_two_headers s1 s2 h1 h2]

/-- Closed witness for the amended C3 theorem (default flags, two 46-byte
headers). -/
theorem claim_C3_wrong_entries_count_amended_witness :
    CDENTRYSIZE ≤ 46 ∧
    readCdirEntries false false 1 [46, 46] 92 =
      some ⟨LIBZIP_ER_INCONS, LIBZIP_ER_DETAIL_CDIR_WRONG_ENTRIES_COUNT⟩ :=
  ⟨by decide, claim_C3_wrong_entries_count_amended false 46 46 (by decide) (by decide)⟩

/-- C3 counterexample: the claim asserts this archive shape is accepted
under default open flags; in fact the entry loop already rejects it with
`INCONS`/`CDIR_WRONG_ENTRIES_COUNT` without `CHECKCONS`. -/
theorem claim_C3_wrong_entries_count_counterexample :
    readCdirEntries false false 1 [46, 46] 92 ≠ none := by decide

theorem pairwiseNames_unique (l : List HashEntry)
    (hpw : l.Pairwise (fun a b => a.name ≠ b.name)) :
    ∀ a ∈ l, ∀ b ∈ l, a.name = b.name → a = b := by
  induction l with
  | nil => intro a ha; simp at ha
  | cons x rest ih =>
    rw [List.pairwise_cons] at hpw
    intro a ha b hb hname
    rcases List.mem_cons.mp ha with ha1 | ha1
    · rcases List.mem_cons.mp hb with hb1 | hb1
      · rw [ha1, hb1]
      · refine absurd ?_ (hpw.1 b hb1)
        rw [← ha1]; exact hname
    · rcases List.mem_cons.mp hb with hb1 | hb1
      · refine absurd ?_ (hpw.1 a ha1)
        rw [← hb1]; exact hname.symm
      · exact ih hpw.2 a ha1 b hb1 hname

theorem mem_join_set (l : List (List HashEntry)) (i : Nat)
    (b : List HashEntry) (x : HashEntry) (hx : x ∈ (l.set i b).join) :
    x ∈ b ∨ ∃ j, ∃ hj : j < l.length, j ≠ i ∧ x ∈ l.get ⟨j, hj⟩ := by
  rw [List.mem_join] at hx
  obtain ⟨c, hc, hxc⟩ := hx
  obtain ⟨⟨j, hjlen⟩, hcj⟩ := List.mem_iff_get.mp hc
  have hjl : j < l.length := by simpa using hjlen
  by_cases hji : j = i
  · subst hji
    left
    have hget : (l.set j b).get ⟨j, hjlen⟩ = b := by
      simp [List.get_eq_getElem, List.getElem_set]
    rw [hget] at hcj
    rw [hcj]
    exact hxc
  · right
    refine ⟨j, hjl, hji, ?_⟩
    have hget : (l.set i b).get ⟨j, hjlen⟩ = l.get ⟨j, hjl⟩ := by
      simp [List.get_eq_getElem, List.getElem_set, Ne.symm hji]
    rw [hget] at hcj
    rw [hcj]
    exact hxc

theorem mem_join_of_getD (l : List (List HashEntry)) (i : Nat)
    (x : HashEntry) (hx : x ∈ l.getD i []) : x ∈ l.join := by
  by_cases hi : i < l.length
  · rw [List.mem_join]
    refine ⟨l.getD i [], ?_, hx⟩
    have : l.getD i [] = l.get ⟨i, hi⟩ := by
      simp [List.getD_eq_getElem?_getD, List.getElem?_eq_getElem hi,
        List.get_eq_getElem]
    rw [this]
    exact List.get_mem l i hi
  · rw [List.getD_eq_default _ _ (by omega)] at hx
    simp at hx

theorem getD_set_self (l : List (List HashEntry)) (i : Nat)
    (b : List HashEntry) (hi : i < l.length) : (l.set i b).getD i [] = b := by
  have hi2 : i < (l.set i b).length := by simpa using hi
  simp [List.getD_eq_getElem?_getD, List.getElem?_eq_getElem hi2,
    List.getElem_set]

theorem mem_join_foldl_ins (n : Nat) (es : List HashEntry) :
    ∀ (t0 : List (List HashEntry)) (x : HashEntry),
    x ∈ (es.foldl (hashInsStep n) t0).join → x ∈ es ∨ x ∈ t0.join := by
  induction es with
  | nil => intro t0 x hx; right; exact hx
  | cons e rest ih =>
    intro t0 x hx
    simp only [List.foldl_cons] at hx
    rcases ih _ x hx with h | h
    · left; exact List.mem_cons_of_mem _ h
    · unfold hashInsStep at h
      rcases mem_join_set _ _ _ _ h with h | ⟨j, hj, _, hmem⟩
      · rcases List.mem_cons.mp h with h | h
        · left; rw [h]; exact List.mem_cons_self _ _
        · right; exact mem_join_of_getD _ _ _ h
      · right
        rw [List.mem_join]
        exact ⟨_, List.get_mem _ _ _, hmem⟩

theorem allEntries_resize_subset (h : ZHash) (n : Nat) (x : HashEntry)
    (hx : x ∈ allEntries (hashResize h n)) : x ∈ allEntries h := by
  unfold hashResize at hx
  split_ifs at hx
  · exact hx
  · unfold allEntries at *
    rcases mem_join_foldl_ins n _ _ x hx with h1 | h1
    · exact h1
    · exfalso
      rw [List.mem_join] at h1
      obtain ⟨c, hc, hxc⟩ := h1
      rw [List.eq_of_mem_replicate hc] at hxc
      simp at hxc

theorem mem_bucketRemoveFirst (p : HashEntry → Bool) (l : List HashEntry)
    (x : HashEntry) (hx : x ∈ bucketRemoveFirst p l) : x ∈ l := by
  induction l with
  | nil => simpa [bucketRemoveFirst] using hx
  | cons a rest ih =>
    unfold bucketRemoveFirst at hx
    split_ifs at hx
    · exact List.mem_cons_of_mem _ hx
    · rcases List.mem_cons.mp hx with hx | hx
      · rw [hx]; exact List.mem_cons_self _ _
      · exact List.mem_cons_of_mem _ (ih hx)

theorem bucketRemoveFirst_none_match (p : HashEntry → Bool) (nm : List Nat)
    (l : List HashEntry) (hpw : l.Pairwise (fun a b => a.name ≠ b.name))
    (hp : ∀ y, p y = true → y.name = nm) (e : HashEntry)
    (hfind : l.find? p = some e) :
    ∀ x ∈ bucketRemoveFirst p l, p x = false := by
  induction l with
  | nil => simp at hfind
  | cons a rest ih =>
    rw [List.pairwise_cons] at hpw
    intro x hx
    unfold bucketRemoveFirst at hx
    split_ifs at hx with hpa
    · by_contra hc
      rw [Bool.not_eq_false] at hc
      exact absurd ((hp a hpa).trans (hp x hc).symm) (hpw.1 x hx)
    · rw [List.find?_cons_of_neg _ hpa] at hfind
      rcases List.mem_cons.mp hx with hx | hx
      · rw [hx, Bool.eq_false_iff]
        intro hc
        exact hpa hc
      · exact ih hpw.2 hfind x hx

theorem bucketUpdate_find (p : HashEntry → Bool) (f : HashEntry → HashEntry)
    (hpf : ∀ y, p (f y) = p y) (l : List HashEntry) (e : HashEntry)
    (hfind : l.find? p = some e) :
    (bucketUpdate p f l).find? p = some (f e) := by
  induction l with
  | nil => simp at hfind
  | cons a rest ih =>
    unfold bucketUpdate
    split_ifs with hpa
    · rw [List.find?_cons_of_pos _ hpa] at hfind
      rw [List.find?_cons_of_pos _ (by rw [hpf a]; exact hpa)]
      simp only [Option.some.injEq] at hfind ⊢
      rw [hfind]
    · rw [List.find?_cons_of_neg _ hpa] at hfind
      rw [List.find?_cons_of_neg _ hpa]
      exact ih hfind

theorem getD_eq_get_of_lt (l : List (List HashEntry)) (i : Nat)
    (hi : i < l.length) : l.getD i [] = l.get ⟨i, hi⟩ := by
  simp [List.getD_eq_getElem?_getD, List.getElem?_eq_getElem hi,
    List.get_eq_getElem]

theorem wf_entry_hash (h : ZHash)
    (hwf1 : ∀ i, ∀ hi : i < h.table.length, ∀ e ∈ h.table.get ⟨i, hi⟩,
      e.hash_value = hashString e.name ∧ e.hash_value % h.table.length = i)
    (x : HashEntry) (hx : x ∈ allEntries h) :
    x.hash_value = hashString x.name := by
  unfold allEntries at hx
  rw [List.mem_join] at hx
  obtain ⟨c, hc, hxc⟩ := hx
  obtain ⟨⟨j, hj⟩, hcj⟩ := List.mem_iff_get.mp hc
  exact (hwf1 j hj x (by rw [hcj]; exact hxc)).1

theorem wf_entry_bucket (h : ZHash)
    (hwf1 : ∀ i, ∀ hi : i < h.table.length, ∀ e ∈ h.table.get ⟨i, hi⟩,
      e.hash_value = hashString e.name ∧ e.hash_value % h.table.length = i)
    (x : HashEntry) (hx : x ∈ allEntries h) :
    x ∈ h.table.getD (x.hash_value % h.table.length) [] := by
  unfold allEntries at hx
  rw [List.mem_join] at hx
  obtain ⟨c, hc, hxc⟩ := hx
  obtain ⟨⟨j, hj⟩, hcj⟩ := List.mem_iff_get.mp hc
  have hxj : x ∈ h.table.get ⟨j, hj⟩ := by rw [hcj]; exact hxc
  have := (hwf1 j hj x hxj).2
  rw [this, getD_eq_get_of_lt _ _ hj]
  exact hxj

theorem hashMatch_name (hv : Nat) (name : List Nat) (e : HashEntry)
    (hp : hashMatch hv name e = true) : e.name = name := by
  unfold hashMatch at hp
  simp only [Bool.and_eq_true, beq_iff_eq] at hp
  exact hp.2

/-- The EXISTS outcome of `_libzip_hash_add` under the table invariant:
the add fails with `EXISTS` exactly when a node with that name is live for
the requested view. -/
theorem hashAdd_exists_iff (h0 : ZHash) (name : List Nat) (index : Nat)
    (flags : Nat) (hwf : HashWF h0) (hidx : ¬ index > LIBZIP_INT64_MAX) :
    (hashAdd h0 name index flags = .error ⟨LIBZIP_ER_EXISTS, 0⟩ ↔
      ∃ e, e ∈ allEntries h0 ∧ e.name = name ∧
        ((flags &&& LIBZIP_FL_UNCHANGED ≠ 0 ∧ e.orig_index ≠ -1) ∨
          e.current_index ≠ -1)) := by
  obtain ⟨hwf1, hwf2, hwf3⟩ := hwf
  unfold hashAdd
  rw [if_neg hidx]
  by_cases hlen : h0.table.length = 0
  · have htab : h0.table = [] := List.eq_nil_of_length_eq_zero hlen
    rw [if_pos hlen]
    dsimp only
    constructor
    · intro hres
      exfalso
      cases hfind : ((hashResize h0 HASH_MIN_SIZE).table.getD
          (hashString name % (hashResize h0 HASH_MIN_SIZE).table.length)
          []).find? (hashMatch (hashString name) name) with
      | none =>
        rw [hfind] at hres
        split_ifs at hres <;> cases hres
      | some e =>
        have hmem := List.mem_of_find?_eq_some hfind
        have : e ∈ allEntries h0 :=
          allEntries_resize_subset h0 HASH_MIN_SIZE e
            (mem_join_of_getD _ _ _ hmem)
        simp only [allEntries, htab] at this
        simp at this
    · rintro ⟨e, he, -, -⟩
      simp only [allEntries, htab] at he
      simp at he
  · rw [if_neg hlen]
    dsimp only
    have hlen0 : 0 < h0.table.length := Nat.pos_of_ne_zero hlen
    constructor
    · intro hres
      cases hfind : (h0.table.getD (hashString name % h0.table.length)
          []).find? (hashMatch (hashString name) name) with
      | none =>
        rw [hfind] at hres
        dsimp only at hres
        revert hres
        split_ifs <;> (intro hres; cases hres)
      | some e =>
        rw [hfind] at hres
        dsimp only at hres
        by_cases hcond : (flags &&& LIBZIP_FL_UNCHANGED ≠ 0 ∧
            e.orig_index ≠ -1 ∨ e.current_index ≠ -1)
        · have hmem : e ∈ h0.table.getD (hashString name % h0.table.length) [] :=
            List.mem_of_find?_eq_some hfind
          have hp := List.find?_some hfind
          exact ⟨e, mem_join_of_getD _ _ _ hmem, hashMatch_name _ _ _ hp, hcond⟩
        · rw [if_neg hcond] at hres
          cases hres
    · rintro ⟨e, he, hename, hlive⟩
      have hhash : e.hash_value = hashString e.name := wf_entry_hash h0 hwf1 e he
      have hbucket : e ∈ h0.table.getD (hashString name % h0.table.length) [] := by
        have := wf_entry_bucket h0 hwf1 e he
        rw [hhash, hename] at this
        exact this
      have hsome : ((h0.table.getD (hashString name % h0.table.length)
          []).find? (hashMatch (hashString name) name)).isSome := by
        rw [List.find?_isSome]
        refine ⟨e, hbucket, ?_⟩
        unfold hashMatch
        simp [hename, hhash]
      obtain ⟨e0, hfind⟩ := Option.isSome_iff_exists.mp hsome
      rw [hfind]
      dsimp only
      have hp0 := List.find?_some hfind
      have he0name : e0.name = name := hashMatch_name _ _ _ hp0
      have he0 : e0 = e :=
        pairwiseNames_unique _ hwf2 e0
          (mem_join_of_getD _ _ _ (List.mem_of_find?_eq_some hfind)) e he
          (by rw [he0name, hename])
      rw [if_pos (by rw [he0]; exact hlive)]

/-- Deleting the only live node with a name and then adding the same name
again (default view) succeeds: either the node was unlinked entirely
(`orig_index == -1`) and the re-add creates a fresh node, or only
`current_index` was cleared and the re-add revives it. -/
theorem hashDelete_then_add (h0 : ZHash) (name : List Nat) (index : Nat)
    (flags : Nat) (hwf : HashWF h0) (hidx : ¬ index > LIBZIP_INT64_MAX)
    (hfl : flags &&& LIBZIP_FL_UNCHANGED = 0) :
    ∀ h1, hashDelete h0 name = .ok h1 →
      ∃ h2, hashAdd h1 name index flags = .ok h2 := by
  obtain ⟨hwf1, hwf2, hwf3⟩ := hwf
  intro h1 hdel
  unfold hashDelete at hdel
  by_cases hn : h0.nentries > 0
  swap
  · rw [if_neg hn] at hdel; cases hdel
  rw [if_pos hn] at hdel
  dsimp only at hdel
  cases hfind : (h0.table.getD (hashString name % h0.table.length) []).find?
      (hashMatch (hashString name) name) with
  | none => rw [hfind] at hdel; cases hdel
  | some e =>
    rw [hfind] at hdel
    dsimp only at hdel
    have hmem_e : e ∈ h0.table.getD (hashString name % h0.table.length) [] :=
      List.mem_of_find?_eq_some hfind
    have hlen0 : 0 < h0.table.length := by
      by_contra hc
      have hnil : h0.table = [] := List.eq_nil_of_length_eq_zero (by omega)
      rw [hnil] at hmem_e
      simp [List.getD] at hmem_e
    have hti : hashString name % h0.table.length < h0.table.length :=
      Nat.mod_lt _ hlen0
    by_cases horig : e.orig_index = -1
    · rw [if_pos horig] at hdel
      have hpw_bucket :
          (h0.table.getD (hashString name % h0.table.length) []).Pairwise
            (fun a b => a.name ≠ b.name) := by
        rw [getD_eq_get_of_lt _ _ hti]
        exact (List.pairwise_join.mp hwf2).1 _ (List.get_mem _ _ _)
      have hno_rem : ∀ x, x ∈ (h0.table.set (hashString name % h0.table.length)
          (bucketRemoveFirst (hashMatch (hashString name) name)
            (h0.table.getD (hashString name % h0.table.length) []))).join →
          x.name ≠ name := by
        intro x hx hxname
        rcases mem_join_set _ _ _ _ hx with hx1 | ⟨j, hj, hne, hmemj⟩
        · have hxbucket : x ∈ h0.table.getD
              (hashString name % h0.table.length) [] :=
            mem_bucketRemoveFirst _ _ _ hx1
          have hxall : x ∈ allEntries h0 := mem_join_of_getD _ _ _ hxbucket
          have hxhash : x.hash_value = hashString x.name :=
            wf_entry_hash h0 hwf1 x hxall
          have hpx : hashMatch (hashString name) name x = true := by
            unfold hashMatch
            simp only [Bool.and_eq_true, beq_iff_eq]
            exact ⟨by rw [hxhash, hxname], hxname⟩
          have hnomatch := bucketRemoveFirst_none_match
            (hashMatch (hashString name) name) name _ hpw_bucket
            (fun y hy => hashMatch_name _ _ _ hy) e hfind x hx1
          rw [hpx] at hnomatch
          cases hnomatch
        · have hxhash := (hwf1 j hj x hmemj).1
          have hxpos := (hwf1 j hj x hmemj).2
          apply hne
          rw [← hxpos, hxhash, hxname]
      have h1cases : h1 = hashResize
          ⟨h0.table.set (hashString name % h0.table.length)
            (bucketRemoveFirst (hashMatch (hashString name) name)
              (h0.table.getD (hashString name % h0.table.length) [])),
            h0.nentries - 1⟩
          ((h0.table.set (hashString name % h0.table.length)
            (bucketRemoveFirst (hashMatch (hashString name) name)
              (h0.table.getD (hashString name % h0.table.length) []))).length
            / 2) ∨
          h1 = ⟨h0.table.set (hashString name % h0.table.length)
            (bucketRemoveFirst (hashMatch (hashString name) name)
              (h0.table.getD (hashString name % h0.table.length) [])),
            h0.nentries - 1⟩ := by
        revert hdel
        split_ifs with hs <;> intro hdel <;>
          simp only [Except.ok.injEq] at hdel
        · exact Or.inl hdel.symm
        · exact Or.inr hdel.symm
      have hno : ∀ x ∈ allEntries h1, x.name ≠ name := by
        intro x hx
        rcases h1cases with hc | hc
        · rw [hc] at hx
          exact hno_rem x (allEntries_resize_subset _ _ _ hx)
        · rw [hc] at hx
          exact hno_rem x hx
      unfold hashAdd
      rw [if_neg hidx]
      dsimp only
      have hnoA : ∀ x, x ∈ allEntries (if h1.table.length = 0 then
          hashResize h1 HASH_MIN_SIZE else h1) → x.name ≠ name := by
        intro x hx
        split_ifs at hx with hz
        · exact hno x (allEntries_resize_subset _ _ _ hx)
        · exact hno x hx
      have hfindA : (((if h1.table.length = 0 then
          hashResize h1 HASH_MIN_SIZE else h1)).table.getD
            (hashString name % (if h1.table.length = 0 then
              hashResize h1 HASH_MIN_SIZE else h1).table.length) []).find?
          (hashMatch (hashString name) name) = none := by
        rw [List.find?_eq_none]
        intro x hx hpx
        exact hnoA x (mem_join_of_getD _ _ _ hx) (hashMatch_name _ _ _ hpx)
      rw [hfindA]
      dsimp only
      split_ifs <;> exact ⟨_, rfl⟩
    · rw [if_neg horig] at hdel
      simp only [Except.ok.injEq] at hdel
      have heq : h1 = { h0 with
        table := h0.table.set (hashString name % h0.table.length)
          (bucketUpdate (hashMatch (hashString name) name)
            (fun e' => { e' with current_index := -1 })
            (h0.table.getD (hashString name % h0.table.length) [])) } :=
        hdel.symm
      have hlen1 : h1.table.length = h0.table.length := by
        rw [heq]
        simp [List.length_set]
      have hbucket : h1.table.getD (hashString name % h0.table.length) [] =
          bucketUpdate (hashMatch (hashString name) name)
            (fun e' => { e' with current_index := -1 })
            (h0.table.getD (hashString name % h0.table.length) []) := by
        rw [heq]
        dsimp only
        exact getD_set_self _ _ _ hti
      unfold hashAdd
      rw [if_neg hidx]
      rw [if_neg (show ¬(h1.table.length = 0) from by rw [hlen1]; omega)]
      dsimp only
      rw [hlen1, hbucket]
      rw [bucketUpdate_find (hashMatch (hashString name) name)
        (fun e' => { e' with current_index := -1 }) (fun y => rfl) _ e hfind]
      dsimp only
      exact ⟨_, if_neg (fun hk =>
        hk.elim (fun hc => hc.1 hfl) (fun hc2 => hc2 rfl))⟩

/-- C6: under the table invariant maintained by the C code, `_libzip_hash_add`
fails with `EXISTS` iff the index holds a node with that name that is live
for the requested view (`current_index != -1`, or `orig_index != -1` when
`LIBZIP_FL_UNCHANGED` is set); and after `_libzip_hash_delete` succeeds on a
name — which clears `current_index` when `orig_index != -1` and unlinks the
node entirely otherwise — a subsequent add of the same name under the
current view succeeds. -/
theorem claim_C6_hash_exists_and_delete_readd (h0 : ZHash) (name : List Nat)
    (index : Nat) (flags : Nat) (hwf : HashWF h0)
    (hidx : ¬ index > LIBZIP_INT64_MAX) :
    (hashAdd h0 name index flags = .error ⟨LIBZIP_ER_EXISTS, 0⟩ ↔
      ∃ e, e ∈ allEntries h0 ∧ e.name = name ∧
        ((flags &&& LIBZIP_FL_UNCHANGED ≠ 0 ∧ e.orig_index ≠ -1) ∨
          e.current_index ≠ -1)) ∧
    (flags &&& LIBZIP_FL_UNCHANGED = 0 →
      ∀ h1, hashDelete h0 name = .ok h1 →
        ∃ h2, hashAdd h1 name index flags = .ok h2) :=
  ⟨hashAdd_exists_iff h0 name index flags hwf hidx,
    fun hfl => hashDelete_then_add h0 name index flags hwf hidx hfl⟩

/-- Concrete instantiation of the C6 theorem: a one-bucket table holding a
single live node named "a". -/
theorem claim_C6_hash_exists_and_delete_readd_witness :
    (hashAdd ⟨[[⟨[97], -1, 5, 177670⟩]], 1⟩ [97] 7 0 =
        .error ⟨LIBZIP_ER_EXISTS, 0⟩ ↔
      ∃ e, e ∈ allEntries ⟨[[⟨[97], -1, 5, 177670⟩]], 1⟩ ∧ e.name = [97] ∧
        ((0 &&& LIBZIP_FL_UNCHANGED ≠ 0 ∧ e.orig_index ≠ -1) ∨
          e.current_index ≠ -1)) ∧
    (0 &&& LIBZIP_FL_UNCHANGED = 0 →
      ∀ h1, hashDelete ⟨[[⟨[97], -1, 5, 177670⟩]], 1⟩ [97] = .ok h1 →
        ∃ h2, hashAdd h1 [97] 7 0 = .ok h2) :=
  claim_C6_hash_exists_and_delete_readd ⟨[[⟨[97], -1, 5, 177670⟩]], 1⟩ [97] 7 0
    (by unfold HashWF allEntries; decide) (by decide)

/-- C7 (amended): the classic-EOCD half of the claim holds — a non-zero
disk u32 (covering both 16-bit disk fields) makes `_libzip_read_eocd`
fail with `MULTIDISK` — but on the EOCD64 path the checked values are the
two 16-bit halves of the LOCATOR disk-with-EOCD64 field, with an EOCD64
record field substituted only when the corresponding half is 0xffff
(disagreements are an `INCONS`/`EOCD64_MISMATCH` error only under
`CHECKCONS`); in particular an EOCD64 record with a non-zero
number-of-this-disk field passes the disk check in default mode whenever
the locator halves are zero. -/
theorem claim_C7_multidisk_amended :
    (∀ (b0 : ZBuffer) (bo flags : Nat), ¬ b0.left < EOCDLEN →
      ((((b0.get 4).2).get32).1 ≠ 0) →
      readEocd b0 bo flags = .error ⟨LIBZIP_ER_MULTIDISK, 0⟩) ∧
    (∀ (flags nd ed n64 e64 : Nat), flags &&& LIBZIP_CHECKCONS = 0 →
      (eocd64DiskCheck flags nd ed n64 e64 = some ⟨LIBZIP_ER_MULTIDISK, 0⟩ ↔
        ((if nd = 0xffff then n64 else nd) ≠ 0 ∨
          (if ed = 0xffff then e64 else ed) ≠ 0))) ∧
    (∀ n64 e64 : Nat, eocd64DiskCheck 0 0 0 n64 e64 = none) := by
  refine ⟨fun b0 bo flags h1 h2 => ?_, fun flags nd ed n64 e64 hcc => ?_,
    fun n64 e64 => ?_⟩
  · unfold readEocd
    rw [if_neg h1, if_pos h2]
  · unfold eocd64DiskCheck
    rw [if_neg (by simp [hcc])]
    constructor
    · intro h
      by_contra hc
      rw [if_neg hc] at h
      cases h
    · intro h
      rw [if_pos h]
  · rfl

/-- C7 counterexample: a ZIP64 archive whose EOCD64 record declares
number-of-this-disk = 1 (bytes `le32 1` at record offset 16) while the
locator's disk field is 0 is parsed successfully under default flags —
`_libzip_read_eocd64` returns a central directory instead of failing with
`MULTIDISK` as the claim requires. -/
theorem claim_C7_multidisk_counterexample :
    readEocd64
        (ZBuffer.new ([80, 75, 6, 7] ++ [0, 0] ++ [0, 0] ++ le64 0 ++
          [0, 0, 0, 0]))
        (ZBuffer.new (EOCD64_MAGIC ++ le64 44 ++ [45, 0, 45, 0] ++ le32 1 ++
          le32 0 ++ le64 0 ++ le64 0 ++ le64 0 ++ le64 0)) 56 0 =
      .ok ⟨0, 0, 0, true⟩ := by
  rfl

/-- Closed witness for the amended C7 theorem: a classic EOCD whose disk
field holds 1 is rejected with `MULTIDISK`. -/
theorem claim_C7_multidisk_amended_witness :
    ¬ (ZBuffer.new ([80, 75, 5, 6] ++ [1, 0, 0, 0] ++
        List.replicate 14 0)).left < EOCDLEN ∧
    readEocd (ZBuffer.new ([80, 75, 5, 6] ++ [1, 0, 0, 0] ++
        List.replicate 14 0)) 0 0 = .error ⟨LIBZIP_ER_MULTIDISK, 0⟩ :=
  ⟨by decide,
    claim_C7_multidisk_amended.1
      (ZBuffer.new ([80, 75, 5, 6] ++ [1, 0, 0, 0] ++ List.replicate 14 0))
      0 0 (by decide) (by decide)⟩

/-- C4 (amended): when the lower source returns 0 at exactly the position
up to which the CRC was computed and validation is on, `crc_read` fails
with `CRC` on a stat-CRC mismatch, with `INCONS` (detail
`INVALID_FILE_LENGTH`, index `MAX_DETAIL_INDEX`) — not `DATA_LENGTH` — on
a stat-size mismatch, and returns 0 marking the CRC complete when both
match or are absent. -/
theorem claim_C4_crc_eof_checks_amended (crcUpdate : Nat → List Nat → Nat)
    (srcErr : ZErr) (ctx : CrcCtx) (st : ZStat)
    (hval : ctx.validate = true) (hpos : ctx.crc_position = ctx.position) :
    (st.valid &&& LIBZIP_STAT_CRC ≠ 0 ∧ st.crc ≠ ctx.crc →
      crcRead crcUpdate srcErr ctx (some []) (some st) =
        .error ⟨LIBZIP_ER_CRC, 0⟩) ∧
    (¬(st.valid &&& LIBZIP_STAT_CRC ≠ 0 ∧ st.crc ≠ ctx.crc) →
      st.valid &&& LIBZIP_STAT_SIZE ≠ 0 ∧ st.size ≠ ctx.position →
      crcRead crcUpdate srcErr ctx (some []) (some st) =
        .error ⟨LIBZIP_ER_INCONS,
          MAKE_DETAIL_WITH_INDEX LIBZIP_ER_DETAIL_INVALID_FILE_LENGTH
            MAX_DETAIL_INDEX⟩) ∧
    (¬(st.valid &&& LIBZIP_STAT_CRC ≠ 0 ∧ st.crc ≠ ctx.crc) →
      ¬(st.valid &&& LIBZIP_STAT_SIZE ≠ 0 ∧ st.size ≠ ctx.position) →
      crcRead crcUpdate srcErr ctx (some []) (some st) =
        .ok (0, { ctx with crc_complete := true, size := ctx.position })) := by
  unfold crcRead
  simp only [List.length_nil, if_pos rfl, hpos]
  refine ⟨fun hcrc => ?_, fun hncrc hsz => ?_, fun hncrc hnsz => ?_⟩
  · rw [if_pos hval, if_pos hcrc]; simp
  · rw [if_pos hval, if_neg hncrc, if_pos hsz]; simp
  · rw [if_pos hval, if_neg hncrc, if_neg hnsz]; simp

/-- C4 counterexample: with validation on, position = crc_position = 0,
EOF from the lower source, and a merged stat that declares (only) a size
of 5, the read fails with `INCONS` (detail `INVALID_FILE_LENGTH`), whose
code 21 differs from `DATA_LENGTH` (33) asserted by the claim. -/
theorem claim_C4_size_mismatch_counterexample :
    crcRead (fun c _ => c) ⟨0, 0⟩ ⟨true, false, 0, 0, 0, 0⟩ (some [])
        (some ⟨LIBZIP_STAT_SIZE, 5, 0⟩) =
      .error ⟨LIBZIP_ER_INCONS,
        MAKE_DETAIL_WITH_INDEX LIBZIP_ER_DETAIL_INVALID_FILE_LENGTH
          MAX_DETAIL_INDEX⟩ ∧
    (⟨LIBZIP_ER_INCONS,
        MAKE_DETAIL_WITH_INDEX LIBZIP_ER_DETAIL_INVALID_FILE_LENGTH
          MAX_DETAIL_INDEX⟩ : ZErr).code ≠ LIBZIP_ER_DATA_LENGTH := by
  refine ⟨rfl, by decide⟩

/-- Closed witness for the amended C4 theorem: a stat carrying a CRC of 7
against an accumulator of 0 raises `CRC`. -/
theorem claim_C4_crc_eof_checks_amended_witness :
    (⟨true, false, 0, 0, 0, 0⟩ : CrcCtx).validate = true ∧
    crcRead (fun c _ => c) ⟨0, 0⟩ ⟨true, false, 0, 0, 0, 0⟩ (some [])
        (some ⟨LIBZIP_STAT_CRC, 0, 7⟩) = .error ⟨LIBZIP_ER_CRC, 0⟩ :=
  ⟨rfl,
    (claim_C4_crc_eof_checks_amended (fun c _ => c) ⟨0, 0⟩
      ⟨true, false, 0, 0, 0, 0⟩ ⟨LIBZIP_STAT_CRC, 0, 7⟩ rfl rfl).1
      ⟨by decide, by decide⟩⟩

theorem utf8Chain_no_zip64 (isLocal : Bool) (nameEnc comEnc : ZEncoding)
    (nameEfData comEfData : List Nat) :
    (direntWriteUtf8Chain isLocal nameEnc comEnc nameEfData comEfData).any
      (fun e => e.id == LIBZIP_EF_ZIP64) = false := by
  unfold direntWriteUtf8Chain
  split_ifs <;> simp_all [LIBZIP_EF_UTF_8_NAME, LIBZIP_EF_UTF_8_COMMENT,
    LIBZIP_EF_ZIP64]

theorem direntWrite_zip64_ef_iff (wtz : Bool) (de : Dirent) (flags : Nat)
    (nameEnc comEnc : ZEncoding) (nameEfData comEfData : List Nat) :
    ((direntWrite wtz de flags nameEnc comEnc nameEfData comEfData).efs.any
        (fun e => e.id == LIBZIP_EF_ZIP64)) =
      (decide ((flags &&& (LIBZIP_FL_LOCAL ||| LIBZIP_FL_FORCE_ZIP64)) =
        (LIBZIP_FL_LOCAL ||| LIBZIP_FL_FORCE_ZIP64)) || needsZip64 de flags) := by
  unfold direntWrite
  have hchain := utf8Chain_no_zip64 (flags &&& LIBZIP_FL_LOCAL ≠ 0) nameEnc comEnc
    nameEfData comEfData
  simp only []
  split_ifs with hwz hz hz <;>
    simp_all [List.any_cons, LIBZIP_EF_WINLIBZIP_AES, LIBZIP_EF_ZIP64]

/-- C5: `_libzip_dirent_needs_zip64` is true exactly when `comp_size`,
`uncomp_size` or (in central headers) `offset` is at least 2^32 − 1, and —
with no `FORCE_ZIP64` — `_libzip_dirent_write` emits a ZIP64 extra field
exactly in that case; in particular a stored entry of size exactly
2^32 − 2 gets no ZIP64 extra field in either header while one of exactly
2^32 − 1 gets one in both. -/
theorem claim_C5_zip64_threshold :
    (∀ (de : Dirent) (flags : Nat),
      needsZip64 de flags = true ↔
        (de.uncomp_size ≥ 4294967295 ∨ de.comp_size ≥ 4294967295 ∨
          (flags &&& LIBZIP_FL_CENTRAL ≠ 0 ∧ de.offset ≥ 4294967295))) ∧
    (∀ (wtz : Bool) (de : Dirent) (nameEnc comEnc : ZEncoding)
        (nd cd : List Nat),
      ((direntWrite wtz de LIBZIP_FL_LOCAL nameEnc comEnc nd cd).efs.any
          (fun e => e.id == LIBZIP_EF_ZIP64)) = needsZip64 de LIBZIP_FL_LOCAL ∧
      ((direntWrite wtz de LIBZIP_FL_CENTRAL nameEnc comEnc nd cd).efs.any
          (fun e => e.id == LIBZIP_EF_ZIP64)) = needsZip64 de LIBZIP_FL_CENTRAL) ∧
    (needsZip64
        { direntInit with comp_size := 4294967294, uncomp_size := 4294967294 }
        LIBZIP_FL_CENTRAL = false ∧
      needsZip64
        { direntInit with comp_size := 4294967294, uncomp_size := 4294967294 }
        LIBZIP_FL_LOCAL = false ∧
      needsZip64
        { direntInit with comp_size := 4294967295, uncomp_size := 4294967295 }
        LIBZIP_FL_CENTRAL = true ∧
      needsZip64
        { direntInit with comp_size := 4294967295, uncomp_size := 4294967295 }
        LIBZIP_FL_LOCAL = true) ∧
    ((direntWrite false
        { direntInit with comp_size := 4294967294, uncomp_size := 4294967294 }
        LIBZIP_FL_LOCAL .ascii .ascii [] []).efs.any
        (fun e => e.id == LIBZIP_EF_ZIP64) = false ∧
      (direntWrite false
        { direntInit with comp_size := 4294967295, uncomp_size := 4294967295 }
        LIBZIP_FL_LOCAL .ascii .ascii [] []).efs.any
        (fun e => e.id == LIBZIP_EF_ZIP64) = true ∧
      (direntWrite false
        { direntInit with comp_size := 4294967294, uncomp_size := 4294967294 }
        LIBZIP_FL_CENTRAL .ascii .ascii [] []).efs.any
        (fun e => e.id == LIBZIP_EF_ZIP64) = false ∧
      (direntWrite false
        { direntInit with comp_size := 4294967295, uncomp_size := 4294967295 }
        LIBZIP_FL_CENTRAL .ascii .ascii [] []).efs.any
        (fun e => e.id == LIBZIP_EF_ZIP64) = true) := by
  refine ⟨fun de flags => ?_, fun wtz de ne ce nd cd => ⟨?_, ?_⟩, by decide, by decide⟩
  · simp only [needsZip64, LIBZIP_UINT32_MAX, Bool.or_eq_true, Bool.and_eq_true,
      decide_eq_true_eq]
    tauto
  · rw [direntWrite_zip64_ef_iff]
    rw [show decide ((LIBZIP_FL_LOCAL &&& (LIBZIP_FL_LOCAL ||| LIBZIP_FL_FORCE_ZIP64)) =
      (LIBZIP_FL_LOCAL ||| LIBZIP_FL_FORCE_ZIP64)) = false from by decide]
    simp
  · rw [direntWrite_zip64_ef_iff]
    rw [show decide ((LIBZIP_FL_CENTRAL &&& (LIBZIP_FL_LOCAL ||| LIBZIP_FL_FORCE_ZIP64)) =
      (LIBZIP_FL_LOCAL ||| LIBZIP_FL_FORCE_ZIP64)) = false from by decide]
    simp

/-- C1: the claim (and the code's own APPNOTE 4.5.3 comment) requires a
local header whose sizes triggered ZIP64 (a size at or above 2^32 − 1) to
carry BOTH 8-byte sizes in the ZIP64 extra field.  At `comp_size` exactly
2^32 − 1 the code does write both fixed 32-bit size fields as 0xFFFFFFFF,
but the payload guard uses strict `>` (zip_dirent.c line 847), so the
emitted ZIP64 extra field has an EMPTY payload instead of the two 8-byte
sizes — the written header is unreadable by libzip's own ZIP64 parser. -/
theorem claim_C1_local_zip64_both_sizes_bug :
    needsZip64 { direntInit with comp_size := 4294967295 } LIBZIP_FL_LOCAL
      = true ∧
    (direntWrite false { direntInit with comp_size := 4294967295 }
        LIBZIP_FL_LOCAL .ascii .ascii [] []).compField = 4294967295 ∧
    (direntWrite false { direntInit with comp_size := 4294967295 }
        LIBZIP_FL_LOCAL .ascii .ascii [] []).uncompField = 4294967295 ∧
    (direntWrite false { direntInit with comp_size := 4294967295 }
        LIBZIP_FL_LOCAL .ascii .ascii [] []).efs =
      [⟨LIBZIP_EF_ZIP64, 0, [], LIBZIP_EF_BOTH⟩] ∧
    (direntWrite false { direntInit with comp_size := 4294967296 }
        LIBZIP_FL_LOCAL .ascii .ascii [] []).efs =
      [⟨LIBZIP_EF_ZIP64, 16,
        le64 0 ++ le64 4294967296, LIBZIP_EF_BOTH⟩] := by
  refine ⟨by decide, by decide, by decide, by decide, by decide⟩

end LibZip
